import Mathlib

/-!
go-on-git: a verification development.

Shallow embedding of parts of `go-on-git` (an interactive terminal client for a
git repository) and theorems about them.

* `GoOnGit.ui`  : `internal/ui/keys.go` (keymap argument parsing, default
  bindings, overrides) and `internal/ui/log.go` (the model of the log view).
* `GoOnGit.git` : the repository data / diff engine (`internal/git`): diff
  parsing, patch generation, combined diffs, status and stash models.

Go `string` values are embedded as Lean `String`; text processing goes through
the character list `String.data`.  All separators the code looks for (`=`,
newline, `+`, `-`, space, `@`) are ASCII, so cutting at a character and
cutting at a byte agree.
-/

namespace GoOnGit

/-! ## The pieces of Go's `strings` package the code relies on -/

/-- `strings.HasPrefix(s, p)`. -/
def startsWith (s p : String) : Bool := p.data.isPrefixOf s.data

/-- The cut that `strings.Index(s, sep)` induces for a one-character separator:
`some (s[:m], s[m+1:])` at the first occurrence `m`, `none` when there is none. -/
def cutAt (sep : Char) : List Char → Option (List Char × List Char)
  | [] => none
  | c :: cs =>
    if c = sep then some ([], cs)
    else match cutAt sep cs with
      | none => none
      | some (a, b) => some (c :: a, b)

/-- The loop of `strings.genSplit`: at most `k` cuts, the remainder is the last piece. -/
def genSplitLoop (sep : Char) : Nat → List Char → List (List Char)
  | 0, s => [s]
  | k + 1, s =>
    match cutAt sep s with
    | none => [s]
    | some (a, b) => a :: genSplitLoop sep k b

/-- `strings.SplitN(s, sep, n)` for a one-character separator and `n ≥ 0`. -/
def SplitN (s : String) (sep : Char) (n : Nat) : List String :=
  if n = 0 then []
  else
    let n := if n > s.data.length + 1 then s.data.length + 1 else n
    (genSplitLoop sep (n - 1) s.data).map String.mk

namespace ui

/-- `ParseKeymapArg` of `internal/ui/keys.go`: parses `"action=key"`; the
result is `(action, key, valid)`. -/
def ParseKeymapArg (arg : String) : String × String × Bool :=
  match SplitN arg '=' 2 with
  | [a, k] => (a, k, true)
  | _ => ("", "", false)

end ui

/-- Modelled from the spec: the line scanning of the parsers of `internal/git`, which
are not among the sources ("scan lines sequentially", spec §4.1): lines end at
a newline, and a final newline does not open a further (empty) line. -/
def splitLines : List Char → List (List Char)
  | [] => []
  | c :: cs =>
    if c = '\n' then [] :: splitLines cs
    else match splitLines cs with
      | [] => [[c]]
      | l :: ls => (c :: l) :: ls

/-- The lines of a text, as strings. -/
def scanLines (text : String) : List String := (splitLines text.data).map String.mk

/-- Removes the leading `p` from `cs`; `none` when `cs` does not start with `p`. -/
def dropLeading : List Char → List Char → Option (List Char)
  | [], cs => some cs
  | _ :: _, [] => none
  | p :: ps, c :: cs => if p = c then dropLeading ps cs else none

/-- The decimal number at the head of the input and what follows it; `none`
when the input does not start with a digit. -/
def parseNat (cs : List Char) : Option (Nat × List Char) :=
  let ds := cs.takeWhile Char.isDigit
  if ds.isEmpty then none
  else some (ds.foldl (fun n c => 10 * n + (c.toNat - 48)) 0, cs.dropWhile Char.isDigit)

namespace git

/-! ## Data model of the diff engine (spec §3) -/

/-- Modelled from the spec: the type `LineType` of `internal/git/diff.go`, which is not
among the sources; spec §3: `Type` is one of Context, Added, Removed (the
constants `LineContext`, `LineAdded`, `LineRemoved` of the tests). -/
inductive LineType where
  | LineContext
  | LineAdded
  | LineRemoved
  deriving DecidableEq, Repr

/-- Modelled from the spec: the type `Line` of `internal/git/diff.go`, which is not among
the sources; spec §3: `Type` and `Content` (the text without the marker).  The
field `Type` is written `Typ`. -/
structure Line where
  Typ : LineType
  Content : String
  deriving DecidableEq, Repr

/-- Modelled from the spec: the type `Hunk` of `internal/git/diff.go`, which is not among
the sources; spec §3: header line, start lines, body lines and positional
metadata. -/
structure Hunk where
  Header : String
  StartOld : Nat
  StartNew : Nat
  Lines : List Line
  FileIndex : Nat
  HunkIndex : Nat
  FilePath : String
  Staged : Bool
  deriving DecidableEq, Repr

/-- Modelled from the spec: the type `FileDiff` of `internal/git/diff.go`, which is not
among the sources; spec §3: paths, the raw preamble lines and the hunks. -/
structure FileDiff where
  Path : String
  OriginalPath : String
  Header : List String
  Hunks : List Hunk
  deriving DecidableEq, Repr

/-- Modelled from the spec: the type `DiffResult` of `internal/git/diff.go`, which is not
among the sources; spec §3: the ordered file diffs. -/
structure DiffResult where
  Files : List FileDiff
  deriving DecidableEq, Repr

/-- Modelled from the spec: the type `CombinedDiffResult` of `internal/git/diff.go`, which
is not among the sources; spec §3: a staged and an unstaged side, either of
which may be nil (`none`). -/
structure CombinedDiffResult where
  StagedDiff : Option DiffResult
  UnstagedDiff : Option DiffResult
  deriving DecidableEq, Repr

/-! ## PatchBuilder (spec §4.2) -/

/-- Modelled from the spec: the marker choice inside `Hunk.GeneratePatch` of
`internal/git/diff.go`, which is not among the sources; spec §4.2: `+`, `-` or
space. -/
def LineType.marker : LineType → String
  | .LineAdded => "+"
  | .LineRemoved => "-"
  | .LineContext => " "

/-- Modelled from the spec: `Hunk.GeneratePatch` of `internal/git/diff.go`, which is
not among the sources.  Spec §4.2: the file header lines exactly as captured,
then the hunk's own header, then each line re-prefixed with its marker
character.  Every line is written followed by a newline. -/
def Hunk.GeneratePatch (h : Hunk) (file : FileDiff) : String :=
  let sb := file.Header.foldl (fun sb header => sb ++ header ++ "\n") ""
  let sb := sb ++ h.Header ++ "\n"
  h.Lines.foldl (fun sb line => sb ++ line.Typ.marker ++ line.Content ++ "\n") sb

/-- A text made of the given lines, each followed by a newline. -/
def unlines : List String → String
  | [] => ""
  | l :: ls => l ++ "\n" ++ unlines ls

/-- The lines the spec asks a patch to consist of: header lines, hunk header,
marker-prefixed body lines. -/
def patchLines (h : Hunk) (file : FileDiff) : List String :=
  file.Header ++ h.Header :: h.Lines.map (fun line => line.Typ.marker ++ line.Content)

/-! ## DiffParser (spec §4.1) -/

/-- The numbers of a hunk header `@@ -oldStart,oldCount +newStart,newCount @@`. -/
structure HunkRange where
  oldStart : Nat
  oldCount : Nat
  newStart : Nat
  newCount : Nat
  deriving DecidableEq, Repr

/-- Modelled from the spec: the range part of the hunk-header matcher of
`internal/git/diff.go`, which is not among the sources; spec §4.1:
`<start>[,<count>]`, an omitted count is 1. -/
def parseRange (cs : List Char) : Option ((Nat × Nat) × List Char) :=
  match parseNat cs with
  | none => none
  | some (start, rest) =>
    match rest with
    | ',' :: rest2 =>
      match parseNat rest2 with
      | none => none
      | some (count, rest3) => some ((start, count), rest3)
    | _ => some ((start, 1), rest)

/-- Modelled from the spec: the hunk-header matcher of `internal/git/diff.go`, which
is not among the sources.  Spec §4.1: a line matching
`@@ -<oldStart>[,<oldCount>] +<newStart>[,<newCount>] @@...`, the numbers read
as integers, omitted counts defaulting to 1. -/
def parseHunkHeader (line : String) : Option HunkRange :=
  match dropLeading "@@ -".data line.data with
  | none => none
  | some r1 =>
    match parseRange r1 with
    | none => none
    | some ((oldStart, oldCount), r2) =>
      match dropLeading " +".data r2 with
      | none => none
      | some r3 =>
        match parseRange r3 with
        | none => none
        | some ((newStart, newCount), r4) =>
          match dropLeading " @@".data r4 with
          | none => none
          | some _ => some ⟨oldStart, oldCount, newStart, newCount⟩

/-- Modelled from the spec: the file-marker test of the diff parser of
`internal/git/diff.go`, which is not among the sources; spec §4.1 and §6: the
per-file diff marker of the tool is `diff --git`. -/
def isFileMarker (line : String) : Bool := startsWith line "diff --git"

/-- Modelled from the spec: the hunk-header test of the diff parser of
`internal/git/diff.go`, which is not among the sources; spec §4.1: a line
starting with `@@`. -/
def isHunkMarker (line : String) : Bool := startsWith line "@@"

/-- Modelled from the spec: line classification of the diff parser of
`internal/git/diff.go`, which is not among the sources.  Spec §4.1: by the
first character, `+` is Added (content the rest of the line), `-` is Removed,
a space or any other content line inside a hunk is Context. -/
def classifyLine (line : String) : Line :=
  match line.data with
  | [] => ⟨.LineContext, line⟩
  | c :: rest =>
    if c = '+' then ⟨.LineAdded, ⟨rest⟩⟩
    else if c = '-' then ⟨.LineRemoved, ⟨rest⟩⟩
    else if c = ' ' then ⟨.LineContext, ⟨rest⟩⟩
    else ⟨.LineContext, line⟩

/-- Modelled from the spec: the path extraction of the diff parser of
`internal/git/diff.go`, which is not among the sources; spec §4.1 and §6: the
path named by a `--- a/<path>` or `+++ b/<path>` line (`tag` is `"--- "` or
`"+++ "`), `none` for another line and for `/dev/null`. -/
def pathOfLine (tag : String) (line : String) : Option String :=
  match dropLeading tag.data line.data with
  | none => none
  | some rest =>
    if rest = "/dev/null".data then none
    else match rest with
      | _ :: '/' :: p => some ⟨p⟩
      | _ => some ⟨rest⟩

/-- Modelled from the spec: the preamble branch of the diff parser of
`internal/git/diff.go`, which is not among the sources.  Spec §3 and §4.1: the
line is kept verbatim in `Header`; a `---` / `+++` line determines `Path` and,
when the header so far announces a rename, `OriginalPath`. -/
def addHeaderLine (f : FileDiff) (line : String) : FileDiff :=
  let f1 := { f with Header := f.Header ++ [line] }
  match pathOfLine "--- " line with
  | some p =>
    if f.Header.any (fun x => startsWith x "rename from") then
      { f1 with Path := p, OriginalPath := p }
    else { f1 with Path := p }
  | none =>
    match pathOfLine "+++ " line with
    | some p => { f1 with Path := p }
    | none => f1

/-- Modelled from the spec: the state of the diff parser of `internal/git/diff.go`,
which is not among the sources; spec §4.1: the result so far with a
"current file" and a "current hunk" cursor. -/
structure ParseState where
  Files : List FileDiff
  currentFile : Option FileDiff
  currentHunk : Option Hunk
  deriving DecidableEq, Repr

/-- Modelled from the spec: part of the diff parser of `internal/git/diff.go`, which is
not among the sources: the current hunk, if any, is appended to its file when
the next hunk or file begins or the text ends. -/
def closeHunk (f : FileDiff) (h : Option Hunk) : FileDiff :=
  match h with
  | none => f
  | some h => { f with Hunks := f.Hunks ++ [h] }

/-- Modelled from the spec: part of the diff parser of `internal/git/diff.go`, which is
not among the sources: the files once the current file, if any, is finished. -/
def closeFile (st : ParseState) : List FileDiff :=
  match st.currentFile with
  | none => st.Files
  | some f => st.Files ++ [closeHunk f st.currentHunk]

/-- Modelled from the spec: one step of the diff parser of `internal/git/diff.go`,
which is not among the sources.  Spec §4.1: a file marker begins a new
`FileDiff`; a hunk header begins a new `Hunk` whose `FileIndex` / `HunkIndex`
are its positions; inside a hunk every other line is classified by its first
character; before the first hunk every other line goes to `Header`.  Input
that matches none of this (a hunk header that does not match the pattern, or
a line outside any file) fails the parse. -/
def parseStep (st : ParseState) (line : String) : Option ParseState :=
  if isFileMarker line then
    some { Files := closeFile st,
           currentFile := some { Path := "", OriginalPath := "", Header := [line], Hunks := [] },
           currentHunk := none }
  else if isHunkMarker line then
    match st.currentFile, parseHunkHeader line with
    | some f, some r =>
      let f1 := closeHunk f st.currentHunk
      some { st with
             currentFile := some f1,
             currentHunk := some { Header := line, StartOld := r.oldStart, StartNew := r.newStart,
                                   Lines := [], FileIndex := st.Files.length,
                                   HunkIndex := f1.Hunks.length, FilePath := f1.Path,
                                   Staged := false } }
    | _, _ => none
  else
    match st.currentFile, st.currentHunk with
    | some _, some h =>
      some { st with currentHunk := some { h with Lines := h.Lines ++ [classifyLine line] } }
    | some f, none => some { st with currentFile := some (addHeaderLine f line) }
    | none, _ => none

/-- Modelled from the spec: the loop of the diff parser of `internal/git/diff.go`, which
is not among the sources: the steps over the lines in order, `none` as soon as
one fails. -/
def parseLines : ParseState → List String → Option ParseState
  | st, [] => some st
  | st, line :: rest =>
    match parseStep st line with
    | none => none
    | some st1 => parseLines st1 rest

/-- Modelled from the spec: `ParseDiff` (the DiffParser) of `internal/git/diff.go`,
which is not among the sources.  Spec §4.1: scan the lines sequentially with a
current-file and a current-hunk cursor; either the whole text parses or the
call fails (`none`). -/
def ParseDiff (text : String) : Option DiffResult :=
  match parseLines ⟨[], none, none⟩ (scanLines text) with
  | none => none
  | some st => some ⟨closeFile st⟩

/-! ## Well-formed diff text and the count check of a patch (spec §6, §4.2) -/

/-- Modelled from the spec: `DiffResult.IsEmpty` of `internal/git/diff.go`, which is not
among the sources; spec §3: empty iff no files changed. -/
def DiffResult.IsEmpty (d : DiffResult) : Bool := d.Files.length == 0

/-- Modelled from the spec: `DiffResult.GetAllHunks` of `internal/git/diff.go`, which
is not among the sources: the hunks of all files, in file order then hunk
order (spec §4.3), collected by a loop over the files. -/
def DiffResult.GetAllHunks (d : DiffResult) : List Hunk :=
  d.Files.foldl (fun hunks f => hunks ++ f.Hunks) []

/-- Modelled from the spec: the loop of `GetAllHunksCombined` of `internal/git/diff.go`,
which is not among the sources: the hunks of one side are appended, each
tagged with `staged`. -/
def appendTagged (staged : Bool) (acc : List Hunk) (hunks : List Hunk) : List Hunk :=
  hunks.foldl (fun acc h => acc ++ [{ h with Staged := staged }]) acc

/-- Modelled from the spec: `CombinedDiffResult.GetAllHunksCombined` of
`internal/git/diff.go`, which is not among the sources.  Spec §4.3: all hunks
of `StagedDiff`, each tagged `Staged = true`, followed by all hunks of
`UnstagedDiff`, tagged `Staged = false`; a nil side contributes nothing. -/
def CombinedDiffResult.GetAllHunksCombined (c : CombinedDiffResult) : List Hunk :=
  let hunks :=
    match c.StagedDiff with
    | none => []
    | some d => appendTagged true [] d.GetAllHunks
  match c.UnstagedDiff with
  | none => hunks
  | some d => appendTagged false hunks d.GetAllHunks

/-- The hunks of a side as the spec words them: file order, then hunk order. -/
def sideHunks (side : Option DiffResult) : List Hunk :=
  match side with
  | none => []
  | some d => d.Files.flatMap (fun f => f.Hunks)

/-- Modelled from the spec: `CombinedDiffResult.GetFileDiff` of
`internal/git/diff.go`, which is not among the sources.  Spec §4.3: `hunk.Staged`
picks the side, `hunk.FileIndex` the file within it; `none` ("not found")
when the side is nil or the index is out of range. -/
def CombinedDiffResult.GetFileDiff (c : CombinedDiffResult) (hunk : Hunk) : Option FileDiff :=
  let diff := if hunk.Staged then c.StagedDiff else c.UnstagedDiff
  match diff with
  | none => none
  | some d => d.Files[hunk.FileIndex]?

/-- Modelled from the spec: the test of one side inside `CombinedDiffResult.IsEmpty` of
`internal/git/diff.go`, which is not among the sources: the side is nil or
reports no files. -/
def sideEmpty (side : Option DiffResult) : Bool :=
  match side with
  | none => true
  | some d => d.IsEmpty

/-- Modelled from the spec: `CombinedDiffResult.IsEmpty` of `internal/git/diff.go`,
which is not among the sources.  Spec §4.3: true iff both sides are nil or
both sides report no files; a nil side is not dereferenced and has no files
to report. -/
def CombinedDiffResult.IsEmpty (c : CombinedDiffResult) : Bool :=
  sideEmpty c.StagedDiff && sideEmpty c.UnstagedDiff

/-- Modelled from the spec: `GetUntrackedFileDiff` of `internal/git/diff.go`, which is
not among the sources, as a function of the path and of the content read from
disk (the nil result for a file that cannot be read is left out).  Spec §4.1: every line of the content is Added, in one hunk starting at
line 1.  The preamble and the hunk header, which the spec leaves open, are
those of a new file with `n` added lines. -/
def GetUntrackedFileDiff (path : String) (content : String) : FileDiff :=
  let lines := scanLines content
  { Path := path,
    OriginalPath := "",
    Header := ["diff --git a/" ++ path ++ " b/" ++ path, "new file mode 100644",
               "--- /dev/null", "+++ b/" ++ path],
    Hunks := [{ Header := "@@ -0,0 +1," ++ toString lines.length ++ " @@",
                StartOld := 0, StartNew := 1,
                Lines := lines.map (fun l => ⟨.LineAdded, l⟩),
                FileIndex := 0, HunkIndex := 0, FilePath := path, Staged := false }] }

/-! ## StatusParser models (spec §3, §4.4) -/

/-- Modelled from the spec: the type `FileStatus` of `internal/git/status.go`, which is
not among the sources; spec §3: path, pre-rename path and the two porcelain
status bytes. -/
structure FileStatus where
  Path : String
  OriginalPath : String
  IndexStatus : Char
  WorkStatus : Char
  deriving DecidableEq, Repr

/-- Modelled from the spec: the type `StatusResult` of `internal/git/status.go`, which is
not among the sources; spec §3: staged, unstaged and untracked entries. -/
structure StatusResult where
  Staged : List FileStatus
  Unstaged : List FileStatus
  Untracked : List FileStatus
  deriving DecidableEq, Repr

/-- Modelled from the spec: `FileStatus.IsUntracked` of `internal/git/status.go`,
which is not among the sources.  Spec §3: untracked is
`Index == '?' && Work == '?'`. -/
def FileStatus.IsUntracked (f : FileStatus) : Bool :=
  f.IndexStatus == '?' && f.WorkStatus == '?'

/-- Modelled from the spec: the word table of `StatusDescription` of
`internal/git/status.go`, which is not among the sources, as
`TestFileStatus_StatusDescription` shows it; the data model (spec §3) has no
other bytes than these, blank and `?`. -/
def statusWord (c : Char) : String :=
  if c = 'M' then "modified"
  else if c = 'A' then "added"
  else if c = 'D' then "deleted"
  else if c = 'R' then "renamed"
  else if c = 'C' then "copied"
  else "unknown"

/-- Modelled from the spec: `FileStatus.StatusDescription` of
`internal/git/status.go`, which is not among the sources.  Spec §4.4: untracked
files render as `"untracked"`; otherwise the index-status word (announced by
`staged: `) and the work-status word, each only when its byte is not blank,
joined by a comma when both are present. -/
def FileStatus.StatusDescription (f : FileStatus) : String :=
  if f.IsUntracked then "untracked"
  else
    let parts := (if f.IndexStatus ≠ ' ' then ["staged: " ++ statusWord f.IndexStatus] else [])
      ++ (if f.WorkStatus ≠ ' ' then [statusWord f.WorkStatus] else [])
    ", ".intercalate parts

/-- Modelled from the spec: the set of paths inside `TotalFiles` of
`internal/git/status.go`, which is not among the sources: marks `path` as seen
in a set of strings, kept as a list without repetitions. -/
def markSeen (seen : List String) (path : String) : List String :=
  if path ∈ seen then seen else seen ++ [path]

/-- Modelled from the spec: `StatusResult.TotalFiles` of `internal/git/status.go`,
which is not among the sources.  Spec §4.4: counts distinct paths across all
three sequences, not the sum of their lengths: every path is marked in a set
and the size of the set is returned. -/
def StatusResult.TotalFiles (s : StatusResult) : Nat :=
  let seen := s.Staged.foldl (fun seen f => markSeen seen f.Path) []
  let seen := s.Unstaged.foldl (fun seen f => markSeen seen f.Path) seen
  let seen := s.Untracked.foldl (fun seen f => markSeen seen f.Path) seen
  seen.length

/-! ## StashParser model (spec §3, §4.6) -/

/-- Modelled from the spec: the type `Stash` of `internal/git/stash.go`, which is not
among the sources; spec §3: position in the stash list, message and branch. -/
structure Stash where
  Index : Nat
  Message : String
  Branch : String
  deriving DecidableEq, Repr

/-- Modelled from the spec: the entry matcher of the StashParser of
`internal/git/stash.go`, which is not among the sources; spec §4.6: the
description that follows the structural head `stash@{<n>}: ` of an entry,
`none` when the line has no such head. -/
def stashEntryBody (line : String) : Option (List Char) :=
  match dropLeading "stash@\x7b".data line.data with
  | none => none
  | some r1 =>
    match parseNat r1 with
    | none => none
    | some (_, r2) => dropLeading "\x7d: ".data r2

/-- Modelled from the spec: the message / branch extraction of the StashParser of
`internal/git/stash.go`, which is not among the sources; spec §4.6:
`On <branch>: <message>` / `WIP on <branch>: <message>` is split at the colon
that ends the branch, later colons stay in the message. -/
def splitStashBody (body : List Char) : String × String :=
  let afterOn :=
    match dropLeading "WIP on ".data body with
    | some r => some r
    | none => dropLeading "On ".data body
  match afterOn with
  | none => (⟨body⟩, "")
  | some r =>
    match cutAt ':' r with
    | none => (⟨body⟩, "")
    | some (branch, msg) => (⟨msg.dropWhile (fun c => c = ' ')⟩, ⟨branch⟩)

/-- Modelled from the spec: the loop of `GetStashes` (the StashParser) of
`internal/git/stash.go`, which is not among the sources.  Spec §4.6: one entry
per line, newest first, `Index` equal to the position; a line that is not an
entry fails the whole parse (spec §7, ParseFailure). -/
def parseStashLines : Nat → List String → Option (List Stash)
  | _, [] => some []
  | i, line :: rest =>
    match stashEntryBody line with
    | none => none
    | some body =>
      match parseStashLines (i + 1) rest with
      | none => none
      | some stashes =>
        some ({ Index := i, Message := (splitStashBody body).1,
                Branch := (splitStashBody body).2 } :: stashes)

/-- Modelled from the spec: the StashParser (`GetStashes` applied to the text of the
stash listing) of `internal/git/stash.go`, which is not among the sources. -/
def ParseStashList (text : String) : Option (List Stash) :=
  parseStashLines 0 (scanLines text)

/-- The strings of a hunk and its file contain no newline, as is the case for
every value cut out of a line of a text. -/
def NewlineFree (h : Hunk) (f : FileDiff) : Prop :=
  (∀ x ∈ f.Header, '\n' ∉ x.data) ∧ '\n' ∉ h.Header.data ∧ ∀ l ∈ h.Lines, '\n' ∉ l.Content.data

/-- A side has at least one file. -/
def hasFile (side : Option DiffResult) : Prop := ∃ d, side = some d ∧ d.Files ≠ []

/-- The hunk with its `Staged` flag set. -/
def Hunk.tagged (staged : Bool) (h : Hunk) : Hunk := { h with Staged := staged }

/-! ## Invariants of the parser -/

/-- The hunks of the file at position `i` carry their positions and its path. -/
def FileIndexed (i : Nat) (f : FileDiff) : Prop :=
  ∀ (j : Nat) (h : Hunk), f.Hunks[j]? = some h →
    h.FileIndex = i ∧ h.HunkIndex = j ∧ h.FilePath = f.Path

/-- All hunks of the finished files and of the current file carry their
positions; the current hunk carries the position it will be appended at. -/
def StateIndexed (st : ParseState) : Prop :=
  (∀ (i : Nat) (f : FileDiff), st.Files[i]? = some f → FileIndexed i f)
    ∧ ∀ f : FileDiff, st.currentFile = some f →
        FileIndexed st.Files.length f
          ∧ (∀ h, st.currentHunk = some h →
              h.FileIndex = st.Files.length ∧ h.HunkIndex = f.Hunks.length ∧ h.FilePath = f.Path)
          ∧ (st.currentHunk = none → f.Hunks = [])

/-- The number of Context plus Removed lines. -/
def oldCount (ls : List Line) : Nat := ls.countP (fun l => l.Typ ≠ .LineAdded)

/-- The number of Context plus Added lines. -/
def newCount (ls : List Line) : Nat := ls.countP (fun l => l.Typ ≠ .LineRemoved)

/-- The file diff of `test.txt` changed from `line1 line2 line3` to
`line1 modified line3`. -/
def sampleFile : FileDiff :=
  { Path := "test.txt", OriginalPath := "",
    Header := ["diff --git a/test.txt b/test.txt", "--- a/test.txt", "+++ b/test.txt"],
    Hunks := [] }

/-- The hunk of that change. -/
def sampleHunk : Hunk :=
  { Header := "@@ -1,3 +1,3 @@", StartOld := 1, StartNew := 1,
    Lines := [⟨.LineContext, "line1"⟩, ⟨.LineRemoved, "line2"⟩, ⟨.LineAdded, "modified"⟩,
              ⟨.LineContext, "line3"⟩],
    FileIndex := 0, HunkIndex := 0, FilePath := "test.txt", Staged := false }

/-- The diff text of `test.txt` changed from `line1 line2 line3` to
`line1 modified line3`. -/
def sampleDiffText : String :=
  "diff --git a/test.txt b/test.txt\nindex 1a2b3c4..5d6e7f8 100644\n--- a/test.txt\n+++ b/test.txt\n@@ -1,3 +1,3 @@\n line1\n-line2\n+modified\n line3\n"

/-- A staged diff text: `file1.txt` changed from `original1` to `modified1`. -/
def sampleStagedText : String :=
  "diff --git a/file1.txt b/file1.txt\nindex 1a2b3c4..5d6e7f8 100644\n--- a/file1.txt\n+++ b/file1.txt\n@@ -1 +1 @@\n-original1\n+modified1\n"

/-- An unstaged diff text: `file2.txt` changed from `original2` to `modified2`. -/
def sampleUnstagedText : String :=
  "diff --git a/file2.txt b/file2.txt\nindex 1a2b3c4..5d6e7f8 100644\n--- a/file2.txt\n+++ b/file2.txt\n@@ -1 +1 @@\n-original2\n+modified2\n"

/-- The combined diff of the two sample texts. -/
def sampleCombined : CombinedDiffResult :=
  ⟨ParseDiff sampleStagedText, ParseDiff sampleUnstagedText⟩

/-- The hunk of the unstaged sample text. -/
def sampleUnstagedHunk : Hunk :=
  { Header := "@@ -1 +1 @@", StartOld := 1, StartNew := 1,
    Lines := [⟨.LineRemoved, "original2"⟩, ⟨.LineAdded, "modified2"⟩],
    FileIndex := 0, HunkIndex := 0, FilePath := "file2.txt", Staged := false }

end git

namespace ui

/-! ## Key bindings (`internal/ui/keys.go`) -/

/-- The type `Keymap`: all configurable key bindings. -/
structure Keymap where
  Up : String
  Down : String
  Left : String
  Right : String
  Top : String
  Bottom : String
  Select : String
  Back : String
  Quit : String
  Stage : String
  StageAll : String
  Unstage : String
  UnstageAll : String
  Discard : String
  Commit : String
  CommitEdit : String
  Push : String
  Stash : String
  StashAll : String
  FileDiff : String
  AllDiffs : String
  Branches : String
  Stashes : String
  Log : String
  Visual : String
  Help : String
  VerboseHelp : String
  NewBranch : String
  Delete : String
  deriving DecidableEq, Repr

/-- `DefaultKeymap` of `internal/ui/keys.go`: the default key bindings. -/
def DefaultKeymap : Keymap :=
  { Up := "k",
    Down := "j",
    Left := "h",
    Right := "l",
    Top := "g",
    Bottom := "G",
    Select := "h",
    Back := "h",
    Quit := "q",
    Stage := "a",
    StageAll := "A",
    Unstage := "u",
    UnstageAll := "U",
    Discard := "d",
    Commit := "c",
    CommitEdit := "C",
    Push := "p",
    Stash := "s",
    StashAll := "S",
    FileDiff := "l",
    AllDiffs := "i",
    Branches := "b",
    Stashes := "e",
    Log := "o",
    Visual := "v",
    Help := "?",
    VerboseHelp := "/",
    NewBranch := "n",
    Delete := "d" }

/-- `Keymap.ApplyOverride` of `internal/ui/keys.go`: the keymap after the call
and the returned flag; the `switch` on the action name is the chain of its
cases, the `default` case last. -/
def Keymap.ApplyOverride (k : Keymap) (action key : String) : Keymap × Bool :=
  if action = "up" then ({ k with Up := key }, true)
  else if action = "down" then ({ k with Down := key }, true)
  else if action = "left" then ({ k with Left := key }, true)
  else if action = "right" then ({ k with Right := key }, true)
  else if action = "top" then ({ k with Top := key }, true)
  else if action = "bottom" then ({ k with Bottom := key }, true)
  else if action = "select" then ({ k with Select := key }, true)
  else if action = "back" then ({ k with Back := key }, true)
  else if action = "quit" then ({ k with Quit := key }, true)
  else if action = "stage" then ({ k with Stage := key }, true)
  else if action = "stage-all" then ({ k with StageAll := key }, true)
  else if action = "unstage" then ({ k with Unstage := key }, true)
  else if action = "unstage-all" then ({ k with UnstageAll := key }, true)
  else if action = "discard" then ({ k with Discard := key }, true)
  else if action = "commit" then ({ k with Commit := key }, true)
  else if action = "commit-edit" then ({ k with CommitEdit := key }, true)
  else if action = "push" then ({ k with Push := key }, true)
  else if action = "stash" then ({ k with Stash := key }, true)
  else if action = "stash-all" then ({ k with StashAll := key }, true)
  else if action = "file-diff" then ({ k with FileDiff := key }, true)
  else if action = "all-diffs" then ({ k with AllDiffs := key }, true)
  else if action = "branches" then ({ k with Branches := key }, true)
  else if action = "stashes" then ({ k with Stashes := key }, true)
  else if action = "log" then ({ k with Log := key }, true)
  else if action = "visual" then ({ k with Visual := key }, true)
  else if action = "help" then ({ k with Help := key }, true)
  else if action = "verbose-help" then ({ k with VerboseHelp := key }, true)
  else if action = "new-branch" then ({ k with NewBranch := key }, true)
  else if action = "delete" then ({ k with Delete := key }, true)
  else (k, false)

/-- `ListKeymapActions` of `internal/ui/keys.go`: all action names. -/
def ListKeymapActions : List String :=
  ["up", "down", "left", "right", "top", "bottom", "select", "back", "quit",
   "stage", "stage-all", "unstage", "unstage-all", "discard",
   "commit", "commit-edit", "push", "stash", "stash-all",
   "file-diff", "all-diffs", "branches", "stashes", "log",
   "visual", "help", "verbose-help", "new-branch", "delete"]

/-- The binding a keymap holds for an action name, by the table of
`TestKeymapBindingsComplete` (`up` is `Up`, `stage-all` is `StageAll`, ...);
`none` for a string that names no action. -/
def Keymap.binding (k : Keymap) (action : String) : Option String :=
  if action = "up" then some k.Up
  else if action = "down" then some k.Down
  else if action = "left" then some k.Left
  else if action = "right" then some k.Right
  else if action = "top" then some k.Top
  else if action = "bottom" then some k.Bottom
  else if action = "select" then some k.Select
  else if action = "back" then some k.Back
  else if action = "quit" then some k.Quit
  else if action = "stage" then some k.Stage
  else if action = "stage-all" then some k.StageAll
  else if action = "unstage" then some k.Unstage
  else if action = "unstage-all" then some k.UnstageAll
  else if action = "discard" then some k.Discard
  else if action = "commit" then some k.Commit
  else if action = "commit-edit" then some k.CommitEdit
  else if action = "push" then some k.Push
  else if action = "stash" then some k.Stash
  else if action = "stash-all" then some k.StashAll
  else if action = "file-diff" then some k.FileDiff
  else if action = "all-diffs" then some k.AllDiffs
  else if action = "branches" then some k.Branches
  else if action = "stashes" then some k.Stashes
  else if action = "log" then some k.Log
  else if action = "visual" then some k.Visual
  else if action = "help" then some k.Help
  else if action = "verbose-help" then some k.VerboseHelp
  else if action = "new-branch" then some k.NewBranch
  else if action = "delete" then some k.Delete
  else none

/-- The overrides of `TestMultipleKeymapOverrides`. -/
def sampleOverrides : List (String × String) :=
  [("up", "w"), ("down", "s"), ("left", "a"), ("right", "d")]

/-- A sequence of overrides applied one after the other, ignoring the flags. -/
def Keymap.applyAll (k : Keymap) : List (String × String) → Keymap
  | [] => k
  | (action, key) :: rest => Keymap.applyAll (k.ApplyOverride action key).1 rest

end ui

/-! ## The log view (`internal/ui/log.go`) -/

/-- `strings.Split(s, sep)` for a one-character separator: `genSplit` with
`n < 0`, that is `Count(s, sep) + 1` pieces. -/
def Split (s : String) (sep : Char) : List String :=
  (genSplitLoop sep (s.data.count sep) s.data).map String.mk

namespace ui

/-- The type `LogModel`, the model of the log view.  Go `int` is embedded as
`Int`, without wrap-around: the values are terminal sizes and numbers of
lines of a slice, for which the sums and differences that `Update` forms
stay within a machine word.  The `error` value is embedded as its optional
message. -/
structure LogModel where
  lines : List String
  scrollOffset : Int
  showHelp : Bool
  showVerboseHelp : Bool
  err : Option String
  width : Int
  height : Int
  deriving DecidableEq, Repr

/-- `NewLogModel`: the zero value. -/
def NewLogModel : LogModel :=
  { lines := [], scrollOffset := 0, showHelp := false, showVerboseHelp := false, err := none,
    width := 0, height := 0 }

/-- `NewLogModelWithSize`: a new log model with dimensions. -/
def NewLogModelWithSize (width height : Int) : LogModel :=
  { NewLogModel with width := width, height := height }

/-- `NewLogModelWithOptions`: a new log model with all options. -/
def NewLogModelWithOptions (width height : Int) (showVerboseHelp : Bool) : LogModel :=
  { NewLogModel with width := width, height := height, showVerboseHelp := showVerboseHelp }

/-- The messages `LogModel.Update` tells apart: a key press (with the string
`msg.String()` of the key), a window resize, the log content, an error, and
any other message. -/
inductive Msg where
  | KeyMsg (key : String)
  | WindowSizeMsg (Width Height : Int)
  | logMsg (content : String)
  | errMsg (err : String)
  | other
  deriving DecidableEq, Repr

/-- The commands of the log view; `Update` returns none of them (`nil`). -/
inductive Cmd where
  | refreshLog
  deriving DecidableEq, Repr

/-- The `visibleLines` that `LogModel.Update` computes: the height minus the
reserved lines (4, or 6 with the verbose help bar), and 10 when that is below 1. -/
def LogModel.visibleLines (m : LogModel) : Int :=
  let reservedLines : Int := if m.showVerboseHelp then 6 else 4
  let visibleLines := m.height - reservedLines
  if visibleLines < 1 then 10 else visibleLines

/-- The `maxOffset` that `LogModel.Update` computes: the number of lines minus
the visible lines, and 0 when that is negative. -/
def LogModel.maxOffset (m : LogModel) : Int :=
  let maxOffset := (m.lines.length : Int) - m.visibleLines
  if maxOffset < 0 then 0 else maxOffset

/-- `LogModel.Update` of `internal/ui/log.go`, with the global keymap `Keys` as
the parameter `keys`: the new model and the command (always `nil`).  The
`switch key` is the chain of its cases in order; the division of `ctrl+d` /
`ctrl+u` is Go's truncating one. -/
def LogModel.Update (keys : Keymap) (m : LogModel) (msg : Msg) : LogModel × Option Cmd :=
  match msg with
  | .KeyMsg key =>
    if m.showHelp then
      if key = keys.Help ∨ key = "esc" ∨ key = keys.Quit then
        ({ m with showHelp := false }, none)
      else (m, none)
    else
      let visibleLines := m.visibleLines
      let maxOffset := m.maxOffset
      if key = keys.Help then ({ m with showHelp := true }, none)
      else if key = keys.VerboseHelp then
        ({ m with showVerboseHelp := !m.showVerboseHelp }, none)
      else if key = keys.Down ∨ key = "down" then
        ({ m with scrollOffset := min (m.scrollOffset + 1) maxOffset }, none)
      else if key = keys.Up ∨ key = "up" then
        ({ m with scrollOffset := max (m.scrollOffset - 1) 0 }, none)
      else if key = keys.Bottom then ({ m with scrollOffset := maxOffset }, none)
      else if key = keys.Top then ({ m with scrollOffset := 0 }, none)
      else if key = "ctrl+d" then
        ({ m with scrollOffset := min (m.scrollOffset + Int.tdiv visibleLines 2) maxOffset }, none)
      else if key = "ctrl+u" then
        ({ m with scrollOffset := max (m.scrollOffset - Int.tdiv visibleLines 2) 0 }, none)
      else (m, none)
  | .WindowSizeMsg width height => ({ m with width := width, height := height }, none)
  | .logMsg content => ({ m with lines := Split content '\n' }, none)
  | .errMsg err => ({ m with err := some err }, none)
  | .other => (m, none)

/-- The model with `scrollOffset` set to `offset` and every other field as it is. -/
def LogModel.scrolledTo (m : LogModel) (offset : Int) : LogModel :=
  { m with scrollOffset := offset }

/-- The model of `TestLogModelNavigation`: size 100 x 10 with 100 lines. -/
def sampleLogModel : LogModel :=
  { NewLogModelWithSize 100 10 with lines := List.replicate 100 "" }

/-- The model after a sequence of messages, each handled by `Update`. -/
def LogModel.run (keys : Keymap) (m : LogModel) : List Msg → LogModel
  | [] => m
  | msg :: rest => LogModel.run keys (m.Update keys msg).1 rest

end ui

/-! ## More of Go's `strings` package, and slice indexing -/

/-- `strings.Join(elems, sep)`. -/
def Join : List String → String → String
  | [], _ => ""
  | [a], _ => a
  | a :: b :: rest, sep => a ++ sep ++ Join (b :: rest) sep

/-- `strings.Count(s, sep)` for a one-character separator. -/
def Count (s : String) (sep : Char) : Nat := s.data.count sep

/-- The characters of `s` written `n` times. -/
def repeatChars : Nat → List Char → List Char
  | 0, _ => []
  | n + 1, s => s ++ repeatChars n s

/-- `strings.Repeat(s, count)`: it panics (`none`) on a negative count. -/
def Repeat (s : String) (count : Int) : Option String :=
  if count < 0 then none else some ⟨repeatChars count.toNat s.data⟩

/-- The index expression `xs[i]` on a slice: it panics (`none`) unless
`0 ≤ i < len(xs)`. -/
def sliceIndex (xs : List String) (i : Int) : Option String :=
  if 0 ≤ i ∧ i < xs.length then xs[i.toNat]? else none

namespace ui

/-! ## The log view: rendering (`internal/ui/log.go`) -/

/-- `LogModel.anchorBottom` of `internal/ui/log.go`: pads the content with
leading newlines; `none` would be the panic of `strings.Repeat`. -/
def LogModel.anchorBottom (m : LogModel) (content : String) : Option String :=
  let lines : Int := Count content '\n'
  if m.height ≤ lines then some content
  else
    let padding := m.height - lines - 1
    match Repeat "\n" padding with
    | none => none
    | some pad => some (pad ++ content)

/-- The `visibleLines` that `LogModel.View` computes: the height minus the
reserved lines (4, or 6 with the verbose help bar), and 20 when that is below 1. -/
def LogModel.viewVisibleLines (m : LogModel) : Int :=
  let reservedLines : Int := if m.showVerboseHelp then 6 else 4
  let visibleLines := m.height - reservedLines
  if visibleLines < 1 then 20 else visibleLines

/-- The `endIdx` of `LogModel.View`: `scrollOffset + visibleLines`, cut at `len(m.lines)`. -/
def LogModel.viewEndIdx (m : LogModel) : Int :=
  let endIdx := m.scrollOffset + m.viewVisibleLines
  if endIdx > m.lines.length then m.lines.length else endIdx

/-- The loop `for i := from; i < endIdx; i++ { line := lines[i]; ... }` of
`LogModel.View`, `count` being the number of its rounds: the indices read and
the lines found there, in order; `none` when an index expression panics. -/
def readLoop (lines : List String) : Int → Nat → Option (List (Int × String))
  | _, 0 => some []
  | i, count + 1 =>
    match sliceIndex lines i with
    | none => none
    | some line =>
      match readLoop lines (i + 1) count with
      | none => none
      | some rest => some ((i, line) :: rest)

/-- The reads of `m.lines` that `LogModel.View` makes: none in help mode, with
an error or with no lines; otherwise those of its loop from `scrollOffset` up
to `endIdx`.  (The text that `View` builds from these lines depends on the
styles of the terminal library and is left out.) -/
def LogModel.viewReads (m : LogModel) : Option (List (Int × String)) :=
  if m.showHelp then some []
  else if m.err.isSome then some []
  else if m.lines.length = 0 then some []
  else readLoop m.lines m.scrollOffset (m.viewEndIdx - m.scrollOffset).toNat

/-- The model with `showHelp` set to `flag` and every other field as it is. -/
def LogModel.withHelp (m : LogModel) (flag : Bool) : LogModel :=
  { m with showHelp := flag }

/-- A model of height 5 (one visible line) with 10 lines. -/
def oneRowLogModel : LogModel :=
  { NewLogModelWithSize 100 5 with lines := List.replicate 10 "" }

/-- The model of `TestLogModelPageNavigation`: size 100 x 20 with 100 lines. -/
def pageLogModel : LogModel :=
  { NewLogModelWithSize 100 20 with lines := List.replicate 100 "" }

/-- The model of `TestLogModelSmallHeight`: size 100 x 0 with 50 lines. -/
def smallLogModel : LogModel :=
  { NewLogModelWithSize 100 0 with lines := List.replicate 50 "" }

end ui

/-! ## Lemmas on the string helpers -/

theorem cutAt_append_sep (sep : Char) (a b : List Char) (h : sep ∉ a) :
    cutAt sep (a ++ sep :: b) = some (a, b) := by
  induction a with
  | nil => simp [cutAt]
  | cons c cs ih =>
    have hc : c ≠ sep := fun e => h (by simp [e])
    have hcs : sep ∉ cs := fun m => h (List.mem_cons_of_mem _ m)
    simp [cutAt, hc, ih hcs]

/-! ## Keymap argument parsing -/

/-- C10: for every action without `=` and every key (possibly empty or itself
containing `=`), `ParseKeymapArg (action ++ "=" ++ key)` is `(action, key, true)`:
the argument is split at the first `=` only. -/
theorem parseKeymapArg_roundtrip (action key : String) (h : '=' ∉ action.data) :
    ui.ParseKeymapArg (action ++ "=" ++ key) = (action, key, true) := by
  have hd : (action ++ "=" ++ key).data = action.data ++ '=' :: key.data := by
    simp [String.data_append]
  have hlen : ¬ (2 > (action.data ++ '=' :: key.data).length + 1) := by
    simp only [List.length_append, List.length_cons]; omega
  simp only [ui.ParseKeymapArg, SplitN, hd, hlen, if_false]
  simp [genSplitLoop, cutAt_append_sep '=' action.data key.data h]

/-- C10, witness: `"commit=="` gives `("commit", "=", true)`. -/
theorem parseKeymapArg_roundtrip_witness :
    '=' ∉ "commit".data ∧ ui.ParseKeymapArg ("commit" ++ "=" ++ "=") = ("commit", "=", true) :=
  ⟨by decide, parseKeymapArg_roundtrip "commit" "=" (by decide)⟩

/-! ## Lines of a text -/

theorem splitLines_append_newline (l rest : List Char) (h : '\n' ∉ l) :
    splitLines (l ++ '\n' :: rest) = l :: splitLines rest := by
  induction l with
  | nil => simp [splitLines]
  | cons c cs ih =>
    have hc : c ≠ '\n' := fun e => h (by simp [e])
    have hcs : '\n' ∉ cs := fun m => h (List.mem_cons_of_mem _ m)
    simp [splitLines, hc, ih hcs]

namespace git

theorem scanLines_unlines (ls : List String) (h : ∀ l ∈ ls, '\n' ∉ l.data) :
    scanLines (unlines ls) = ls := by
  induction ls with
  | nil => simp [unlines, scanLines, splitLines]
  | cons l ls ih =>
    have hl : '\n' ∉ l.data := h l (by simp)
    have hls : ∀ x ∈ ls, '\n' ∉ x.data := fun x hx => h x (by simp [hx])
    have ih1 := ih hls
    simp only [scanLines] at ih1 ⊢
    have hd : (unlines (l :: ls)).data = l.data ++ '\n' :: (unlines ls).data := by
      simp [unlines, String.data_append]
    rw [hd, splitLines_append_newline _ _ hl]
    simp [ih1]

theorem foldl_append_line {α : Type} (g : α → String) (l : List α) (init : String) :
    l.foldl (fun sb x => sb ++ g x ++ "\n") init = init ++ unlines (l.map g) := by
  induction l generalizing init with
  | nil => simp [unlines]
  | cons x xs ih =>
    simp only [List.foldl_cons, List.map_cons, unlines, ih]
    simp [String.append_assoc]

theorem unlines_append (a b : List String) : unlines (a ++ b) = unlines a ++ unlines b := by
  induction a with
  | nil => simp [unlines]
  | cons x xs ih => simp [unlines, ih, String.append_assoc]

theorem generatePatch_eq_unlines (h : Hunk) (f : FileDiff) :
    h.GeneratePatch f = unlines (patchLines h f) := by
  have e : (fun (sb : String) (line : Line) => sb ++ line.Typ.marker ++ line.Content ++ "\n")
      = (fun sb line => sb ++ (line.Typ.marker ++ line.Content) ++ "\n") := by
    funext sb line
    simp [String.append_assoc]
  simp only [Hunk.GeneratePatch, patchLines]
  rw [e, foldl_append_line (fun x : String => x), foldl_append_line, unlines_append]
  simp [unlines, String.append_assoc]

theorem patchLines_no_newline (h : Hunk) (f : FileDiff) (hn : NewlineFree h f) :
    ∀ l ∈ patchLines h f, '\n' ∉ l.data := by
  intro l hl
  simp only [patchLines, List.mem_append, List.mem_cons, List.mem_map] at hl
  rcases hl with hl | rfl | ⟨x, hx, rfl⟩
  · exact hn.1 l hl
  · exact hn.2.1
  · have := hn.2.2 x hx
    cases hx2 : x.Typ <;> simp [LineType.marker, String.data_append, this]

/-! ## PatchBuilder -/

/-- C2: the text of `GeneratePatch h f` is the lines of `f.Header` in order, then
`h.Header`, then for each element of `h.Lines` in order its marker (`+` Added,
`-` Removed, space Context) followed by its content, every line ended by a
newline; when none of these strings contains a newline, splitting the text
into lines gives back exactly these lines. -/
theorem generatePatch_lines (h : Hunk) (f : FileDiff) (hn : NewlineFree h f) :
    h.GeneratePatch f
        = unlines (f.Header ++ h.Header :: h.Lines.map (fun l => l.Typ.marker ++ l.Content))
      ∧ scanLines (h.GeneratePatch f)
        = f.Header ++ h.Header :: h.Lines.map (fun l => l.Typ.marker ++ l.Content)
      ∧ LineType.marker .LineAdded = "+" ∧ LineType.marker .LineRemoved = "-"
      ∧ LineType.marker .LineContext = " " := by
  refine ⟨generatePatch_eq_unlines h f, ?_, rfl, rfl, rfl⟩
  rw [generatePatch_eq_unlines]
  exact scanLines_unlines _ (patchLines_no_newline h f hn)

/-- C2, witness: the patch of the sample hunk. -/
theorem generatePatch_lines_witness :
    NewlineFree sampleHunk sampleFile
      ∧ sampleHunk.GeneratePatch sampleFile
        = "diff --git a/test.txt b/test.txt\n--- a/test.txt\n+++ b/test.txt\n@@ -1,3 +1,3 @@\n line1\n-line2\n+modified\n line3\n"
      ∧ scanLines (sampleHunk.GeneratePatch sampleFile)
        = ["diff --git a/test.txt b/test.txt", "--- a/test.txt", "+++ b/test.txt",
           "@@ -1,3 +1,3 @@", " line1", "-line2", "+modified", " line3"] :=
  have hn : NewlineFree sampleHunk sampleFile := by
    unfold NewlineFree sampleHunk sampleFile
    decide
  ⟨hn, by decide, (generatePatch_lines sampleHunk sampleFile hn).2.1.trans (by decide)⟩

/-! ## CombinedDiffAssembler -/

theorem getAllHunks_eq_flatMap (d : DiffResult) :
    d.GetAllHunks = d.Files.flatMap (fun f => f.Hunks) := by
  have key : ∀ (fs : List FileDiff) (acc : List Hunk),
      fs.foldl (fun hunks f => hunks ++ f.Hunks) acc = acc ++ fs.flatMap (fun f => f.Hunks) := by
    intro fs
    induction fs with
    | nil => simp
    | cons f fs ih => intro acc; simp [ih, List.flatMap_cons]
  simpa [DiffResult.GetAllHunks] using key d.Files []

theorem appendTagged_eq (staged : Bool) (acc hunks : List Hunk) :
    appendTagged staged acc hunks = acc ++ hunks.map (Hunk.tagged staged) := by
  induction hunks generalizing acc with
  | nil => simp [appendTagged]
  | cons h hs ih =>
    have := ih (acc ++ [{ h with Staged := staged }])
    simp only [appendTagged, List.foldl_cons] at this ⊢
    rw [this]
    simp [Hunk.tagged]

theorem getAllHunksCombined_eq (c : CombinedDiffResult) :
    c.GetAllHunksCombined
      = (sideHunks c.StagedDiff).map (Hunk.tagged true)
        ++ (sideHunks c.UnstagedDiff).map (Hunk.tagged false) := by
  cases hs : c.StagedDiff <;> cases hu : c.UnstagedDiff <;>
    simp [CombinedDiffResult.GetAllHunksCombined, sideHunks, hs, hu, appendTagged_eq,
      getAllHunks_eq_flatMap]

/-- C3: `GetAllHunksCombined` is all hunks of `StagedDiff` (file order, then hunk
order), each with `Staged = true`, followed by all hunks of `UnstagedDiff` in
the same order, each with `Staged = false`; its length is the number of staged
hunks plus the number of unstaged hunks. -/
theorem getAllHunksCombined_spec (c : CombinedDiffResult) :
    c.GetAllHunksCombined
        = (sideHunks c.StagedDiff).map (fun h => { h with Staged := true })
          ++ (sideHunks c.UnstagedDiff).map (fun h => { h with Staged := false })
      ∧ c.GetAllHunksCombined.length
        = (sideHunks c.StagedDiff).length + (sideHunks c.UnstagedDiff).length := by
  have h := getAllHunksCombined_eq c
  refine ⟨h, ?_⟩
  rw [h]
  simp

/-- C6: `IsEmpty` is true iff both sides are nil or both report no files (a nil
side has none to report); it is false exactly when either side has at least
one file; it is defined on nil sides. -/
theorem combinedIsEmpty_iff (c : CombinedDiffResult) :
    (c.IsEmpty = true ↔
        (c.StagedDiff = none ∧ c.UnstagedDiff = none)
          ∨ (¬ hasFile c.StagedDiff ∧ ¬ hasFile c.UnstagedDiff))
      ∧ (c.IsEmpty = false ↔ hasFile c.StagedDiff ∨ hasFile c.UnstagedDiff)
      ∧ (CombinedDiffResult.mk none none).IsEmpty = true := by
  have side : ∀ s : Option DiffResult, sideEmpty s = true ↔ ¬ hasFile s := by
    intro s
    cases s with
    | none => simp [sideEmpty, hasFile]
    | some d => simp [sideEmpty, hasFile, DiffResult.IsEmpty]
  have hnone : ∀ s : Option DiffResult, s = none → ¬ hasFile s := by
    intro s hs
    simp [hasFile, hs]
  refine ⟨?_, ?_, rfl⟩
  · simp only [CombinedDiffResult.IsEmpty, Bool.and_eq_true, side]
    constructor
    · intro h; exact Or.inr h
    · rintro (⟨h1, h2⟩ | h)
      · exact ⟨hnone _ h1, hnone _ h2⟩
      · exact h
  · rw [← Bool.not_eq_true]
    simp only [CombinedDiffResult.IsEmpty, Bool.and_eq_true, side]
    tauto

/-! ## Untracked files -/

/-- C7: `GetUntrackedFileDiff` yields exactly one hunk, starting at line 1, whose
lines are the lines of the content in order, all of type Added (no Removed and
no Context line); content `"a\nb\n"` gives exactly the two Added lines `a`, `b`. -/
theorem untrackedFileDiff_added (path content : String) :
    (∃ h, (GetUntrackedFileDiff path content).Hunks = [h]
        ∧ h.StartNew = 1
        ∧ h.Lines = (scanLines content).map (fun l => ⟨.LineAdded, l⟩)
        ∧ h.Lines.length = (scanLines content).length
        ∧ h.Lines.countP (fun l => l.Typ = .LineAdded) = h.Lines.length
        ∧ h.Lines.countP (fun l => l.Typ = .LineRemoved) = 0
        ∧ h.Lines.countP (fun l => l.Typ = .LineContext) = 0)
      ∧ (GetUntrackedFileDiff path "a\nb\n").Hunks.map (fun h => h.Lines)
        = [[⟨.LineAdded, "a"⟩, ⟨.LineAdded, "b"⟩]] := by
  refine ⟨⟨_, rfl, rfl, rfl, by simp, ?_, ?_, ?_⟩, ?_⟩
  · simp [List.countP_eq_length]
  · simp [List.countP_eq_zero]
  · simp [List.countP_eq_zero]
  · simp only [GetUntrackedFileDiff, List.map_cons, List.map_nil]
    have : scanLines "a\nb\n" = ["a", "b"] := by decide
    simp [this]

/-! ## StatusParser -/

/-- C8: `StatusDescription` is `"untracked"` for an untracked file (both bytes
`?`); `"staged: <word>"` for a non-blank index status alone (M modified,
A added, D deleted, R renamed, C copied); the work-status word alone
(M modified, D deleted) when the index status is blank; and the two joined by
`", "` when both are non-blank. -/
theorem statusDescription_cases (p o : String) :
    (FileStatus.mk p o '?' '?').StatusDescription = "untracked"
      ∧ (FileStatus.mk p o 'M' ' ').StatusDescription = "staged: modified"
      ∧ (FileStatus.mk p o 'A' ' ').StatusDescription = "staged: added"
      ∧ (FileStatus.mk p o 'D' ' ').StatusDescription = "staged: deleted"
      ∧ (FileStatus.mk p o 'R' ' ').StatusDescription = "staged: renamed"
      ∧ (FileStatus.mk p o 'C' ' ').StatusDescription = "staged: copied"
      ∧ (FileStatus.mk p o ' ' 'M').StatusDescription = "modified"
      ∧ (FileStatus.mk p o ' ' 'D').StatusDescription = "deleted"
      ∧ (FileStatus.mk p o 'M' 'M').StatusDescription = "staged: modified, modified"
      ∧ (FileStatus.mk p o 'A' 'M').StatusDescription = "staged: added, modified"
      ∧ (FileStatus.mk p o 'D' 'M').StatusDescription = "staged: deleted, modified"
      ∧ (FileStatus.mk p o 'R' 'M').StatusDescription = "staged: renamed, modified"
      ∧ (FileStatus.mk p o 'C' 'M').StatusDescription = "staged: copied, modified"
      ∧ (FileStatus.mk p o 'M' 'D').StatusDescription = "staged: modified, deleted"
      ∧ (FileStatus.mk p o 'A' 'D').StatusDescription = "staged: added, deleted"
      ∧ (FileStatus.mk p o 'D' 'D').StatusDescription = "staged: deleted, deleted"
      ∧ (FileStatus.mk p o 'R' 'D').StatusDescription = "staged: renamed, deleted"
      ∧ (FileStatus.mk p o 'C' 'D').StatusDescription = "staged: copied, deleted" := by
  refine ⟨?_, ?_, ?_, ?_, ?_, ?_, ?_, ?_, ?_, ?_, ?_, ?_, ?_, ?_, ?_, ?_, ?_, ?_⟩ <;>
    simp only [FileStatus.StatusDescription, FileStatus.IsUntracked] <;> decide

theorem markSeen_fold_nodup {α : Type} (g : α → String) (l : List α) (seen : List String)
    (hs : seen.Nodup) : (l.foldl (fun seen f => markSeen seen (g f)) seen).Nodup := by
  induction l generalizing seen with
  | nil => simpa using hs
  | cons x xs ih =>
    simp only [List.foldl_cons]
    apply ih
    unfold markSeen
    split
    · exact hs
    · rename_i hx
      exact List.Nodup.append hs (by simp) (by simpa using hx)

theorem markSeen_fold_mem {α : Type} (g : α → String) (l : List α) (seen : List String)
    (p : String) :
    p ∈ l.foldl (fun seen f => markSeen seen (g f)) seen ↔ p ∈ seen ∨ p ∈ l.map g := by
  induction l generalizing seen with
  | nil => simp
  | cons x xs ih =>
    simp only [List.foldl_cons, ih, List.map_cons, List.mem_cons]
    unfold markSeen
    split
    · rename_i hx
      constructor
      · rintro (h | h)
        · exact Or.inl h
        · exact Or.inr (Or.inr h)
      · rintro (h | h | h)
        · exact Or.inl h
        · exact Or.inl (h ▸ hx)
        · exact Or.inr h
    · simp only [List.mem_append, List.mem_singleton]
      tauto

theorem totalFiles_eq_card (s : StatusResult) :
    s.TotalFiles
      = ((s.Staged ++ s.Unstaged ++ s.Untracked).map (fun f => f.Path)).toFinset.card := by
  have hfold : s.TotalFiles
      = ((s.Staged ++ s.Unstaged ++ s.Untracked).foldl
          (fun seen f => markSeen seen f.Path) []).length := by
    simp [StatusResult.TotalFiles, List.foldl_append]
  rw [hfold]
  have hnd := markSeen_fold_nodup (fun f : FileStatus => f.Path)
    (s.Staged ++ s.Unstaged ++ s.Untracked) [] List.nodup_nil
  rw [← List.toFinset_card_of_nodup hnd]
  congr 1
  ext p
  simp only [List.mem_toFinset]
  rw [markSeen_fold_mem]
  simp

/-- C5: `TotalFiles` is the number of distinct `Path` values occurring in
`Staged`, `Unstaged` and `Untracked` together; it is at most the sum of the
three lengths, and a path present in both `Staged` and `Unstaged` is counted
once, so the total can be smaller than that sum. -/
theorem totalFiles_distinct (s : StatusResult) (a b : FileStatus) (p : String) :
    s.TotalFiles
        = ((s.Staged ++ s.Unstaged ++ s.Untracked).map (fun f => f.Path)).toFinset.card
      ∧ s.TotalFiles ≤ s.Staged.length + s.Unstaged.length + s.Untracked.length
      ∧ (StatusResult.mk [{ a with Path := p }] [{ b with Path := p }] []).TotalFiles = 1
      ∧ (StatusResult.mk [{ a with Path := p }] [{ b with Path := p }] []).TotalFiles
          < [{ a with Path := p }].length + [{ b with Path := p }].length
            + ([] : List FileStatus).length := by
  have h1 : (StatusResult.mk [{ a with Path := p }] [{ b with Path := p }] []).TotalFiles = 1 := by
    simp [StatusResult.TotalFiles, markSeen]
  refine ⟨totalFiles_eq_card s, ?_, h1, ?_⟩
  · rw [totalFiles_eq_card]
    refine (List.toFinset_card_le _).trans ?_
    simp [Nat.add_assoc]
  · rw [h1]
    simp

/-! ## StashParser -/

theorem parseStashLines_index (ls : List String) (i : Nat)
    (hent : ∀ l ∈ ls, (stashEntryBody l).isSome = true) :
    ∃ stashes, parseStashLines i ls = some stashes
      ∧ stashes.length = ls.length
      ∧ stashes.map (fun st => st.Index) = List.range' i ls.length := by
  induction ls generalizing i with
  | nil => exact ⟨[], rfl, rfl, rfl⟩
  | cons l ls ih =>
    obtain ⟨body, hb⟩ := Option.isSome_iff_exists.mp (hent l (by simp))
    obtain ⟨rest, hr, hlen, hidx⟩ := ih (i + 1) (fun x hx => hent x (by simp [hx]))
    refine ⟨{ Index := i, Message := (splitStashBody body).1,
              Branch := (splitStashBody body).2 } :: rest, ?_, ?_, ?_⟩
    · simp only [parseStashLines, hb, hr]
    · simp [hlen]
    · simp [hidx, List.range'_succ]

/-- C9: for a stash-listing text with N entries (N lines, each with the head
`stash@{n}: `), the parsed sequence has length N, and its i-th element has
`Index = i`: the indices are exactly 0..N-1 in list order. -/
theorem parseStashList_index (text : String)
    (hent : ∀ l ∈ scanLines text, (stashEntryBody l).isSome = true) :
    ∃ stashes, ParseStashList text = some stashes
      ∧ stashes.length = (scanLines text).length
      ∧ stashes.map (fun st => st.Index) = List.range (scanLines text).length
      ∧ ∀ i (hi : i < stashes.length), (stashes.get ⟨i, hi⟩).Index = i := by
  obtain ⟨stashes, hp, hlen, hidx⟩ := parseStashLines_index (scanLines text) 0 hent
  rw [← List.range_eq_range'] at hidx
  refine ⟨stashes, hp, hlen, hidx, ?_⟩
  intro i hi
  have h1 : (stashes.map (fun st => st.Index))[i]? = (List.range (scanLines text).length)[i]? := by
    rw [hidx]
  rw [List.getElem?_map, List.getElem?_range (by omega), List.getElem?_eq_getElem hi] at h1
  simpa using h1

/-- C9, witness: three stashes pushed as First, Second, Third. -/
theorem parseStashList_index_witness :
    ∃ stashes,
      ParseStashList
          "stash@{0}: On master: Third\nstash@{1}: On master: Second\nstash@{2}: On master: First\n"
        = some stashes
      ∧ stashes.length
        = (scanLines
            "stash@{0}: On master: Third\nstash@{1}: On master: Second\nstash@{2}: On master: First\n").length
      ∧ stashes.map (fun st => st.Index)
        = List.range (scanLines
            "stash@{0}: On master: Third\nstash@{1}: On master: Second\nstash@{2}: On master: First\n").length
      ∧ ∀ i (hi : i < stashes.length), (stashes.get ⟨i, hi⟩).Index = i :=
  parseStashList_index
    "stash@{0}: On master: Third\nstash@{1}: On master: Second\nstash@{2}: On master: First\n"
    (by decide)

/-! ## DiffParser: positions -/

theorem fileIndexed_closeHunk (i : Nat) (f : FileDiff) (oh : Option Hunk)
    (hf : FileIndexed i f)
    (hh : ∀ h, oh = some h → h.FileIndex = i ∧ h.HunkIndex = f.Hunks.length ∧ h.FilePath = f.Path) :
    FileIndexed i (closeHunk f oh) := by
  cases oh with
  | none => simpa [closeHunk] using hf
  | some h =>
    unfold FileIndexed
    intro j x hx
    simp only [closeHunk] at hx ⊢
    by_cases hj : j < f.Hunks.length
    · rw [List.getElem?_append_left hj] at hx
      exact hf j x hx
    · have hj2 : f.Hunks.length ≤ j := Nat.le_of_not_lt hj
      rw [List.getElem?_append_right hj2] at hx
      have hz : j - f.Hunks.length = 0 := by
        by_contra hne
        obtain ⟨k, hk⟩ := Nat.exists_eq_succ_of_ne_zero hne
        rw [hk] at hx
        simp at hx
      rw [hz] at hx
      simp only [List.getElem?_cons_zero, Option.some.injEq] at hx
      subst hx
      obtain ⟨h1, h2, h3⟩ := hh h rfl
      exact ⟨h1, by omega, h3⟩

theorem closeFile_indexed (st : ParseState) (hst : StateIndexed st) :
    ∀ i f, (closeFile st)[i]? = some f → FileIndexed i f := by
  intro i f hf
  unfold closeFile at hf
  cases hc : st.currentFile with
  | none =>
    rw [hc] at hf
    exact hst.1 i f hf
  | some cf =>
    rw [hc] at hf
    simp only at hf
    obtain ⟨h1, h2, _⟩ := hst.2 cf hc
    by_cases hi : i < st.Files.length
    · rw [List.getElem?_append_left hi] at hf
      exact hst.1 i f hf
    · have hi2 : st.Files.length ≤ i := Nat.le_of_not_lt hi
      rw [List.getElem?_append_right hi2] at hf
      have hz : i - st.Files.length = 0 := by
        by_contra hne
        obtain ⟨k, hk⟩ := Nat.exists_eq_succ_of_ne_zero hne
        rw [hk] at hf
        simp at hf
      rw [hz] at hf
      simp only [List.getElem?_cons_zero, Option.some.injEq] at hf
      subst hf
      have hi3 : i = st.Files.length := by omega
      subst hi3
      exact fileIndexed_closeHunk _ cf st.currentHunk h1 h2

theorem addHeaderLine_hunks (f : FileDiff) (line : String) :
    (addHeaderLine f line).Hunks = f.Hunks := by
  unfold addHeaderLine
  split
  · split <;> rfl
  · split <;> rfl

theorem parseStep_indexed (st st1 : ParseState) (line : String) (hst : StateIndexed st)
    (hstep : parseStep st line = some st1) : StateIndexed st1 := by
  unfold parseStep at hstep
  by_cases hfm : isFileMarker line = true
  · simp only [hfm, if_true, Option.some.injEq] at hstep
    subst hstep
    refine ⟨closeFile_indexed st hst, ?_⟩
    intro f hf
    simp only [Option.some.injEq] at hf
    subst hf
    refine ⟨?_, ?_, ?_⟩
    · unfold FileIndexed
      intro j h hj
      simp at hj
    · intro h hh
      simp at hh
    · intro _
      rfl
  · simp only [hfm] at hstep
    by_cases hhm : isHunkMarker line = true
    · simp only [hhm, if_true] at hstep
      cases hc : st.currentFile with
      | none => simp [hc] at hstep
      | some cf =>
        cases hp : parseHunkHeader line with
        | none => simp [hc, hp] at hstep
        | some r =>
          simp only [hc, hp, Bool.false_eq_true, if_false, Option.some.injEq] at hstep
          subst hstep
          obtain ⟨h1, h2, _⟩ := hst.2 cf hc
          refine ⟨hst.1, ?_⟩
          intro f hf
          simp only [Option.some.injEq] at hf
          subst hf
          refine ⟨fileIndexed_closeHunk _ cf st.currentHunk h1 h2, ?_, ?_⟩
          · intro h hh
            simp only [Option.some.injEq] at hh
            subst hh
            exact ⟨rfl, rfl, rfl⟩
          · intro hh
            simp at hh
    · simp only [hhm, Bool.false_eq_true, if_false] at hstep
      cases hc : st.currentFile with
      | none => simp [hc] at hstep
      | some cf =>
        obtain ⟨h1, h2, h3⟩ := hst.2 cf hc
        cases hh : st.currentHunk with
        | some h =>
          simp only [hc, hh, Option.some.injEq] at hstep
          subst hstep
          refine ⟨hst.1, ?_⟩
          intro f hf
          simp only [Option.some.injEq] at hf
          subst hf
          refine ⟨h1, ?_, ?_⟩
          · intro x hx
            simp only [Option.some.injEq] at hx
            subst hx
            exact h2 h hh
          · intro hx
            simp at hx
        | none =>
          simp only [hc, hh, Option.some.injEq] at hstep
          subst hstep
          refine ⟨hst.1, ?_⟩
          intro f hf
          simp only [Option.some.injEq] at hf
          subst hf
          have he : (addHeaderLine cf line).Hunks = [] := by
            rw [addHeaderLine_hunks]
            exact h3 hh
          refine ⟨?_, ?_, ?_⟩
          · unfold FileIndexed
            intro j h hj
            rw [he] at hj
            simp at hj
          · intro h hx
            simp at hx
          · intro _
            exact he

theorem parseLines_indexed (ls : List String) (st st1 : ParseState) (hst : StateIndexed st)
    (hp : parseLines st ls = some st1) : StateIndexed st1 := by
  induction ls generalizing st with
  | nil =>
    simp only [parseLines, Option.some.injEq] at hp
    subst hp
    exact hst
  | cons l ls ih =>
    simp only [parseLines] at hp
    cases hs : parseStep st l with
    | none => simp [hs] at hp
    | some s2 =>
      simp only [hs] at hp
      exact ih s2 (parseStep_indexed st s2 l hst hs) hp

theorem parseDiff_indexed (text : String) (d : DiffResult) (hp : ParseDiff text = some d) :
    ∀ i f, d.Files[i]? = some f → FileIndexed i f := by
  unfold ParseDiff at hp
  cases hl : parseLines ⟨[], none, none⟩ (scanLines text) with
  | none => simp [hl] at hp
  | some st =>
    simp only [hl, Option.some.injEq] at hp
    subst hp
    apply closeFile_indexed
    apply parseLines_indexed _ _ _ _ hl
    refine ⟨?_, ?_⟩
    · intro i f hf
      simp at hf
    · intro f hf
      simp at hf

theorem sideHunks_resolve (side : Option DiffResult)
    (hp : ∀ d, side = some d → ∃ t, ParseDiff t = some d) (h0 : Hunk)
    (hm : h0 ∈ sideHunks side) :
    ∃ d f, side = some d ∧ d.Files[h0.FileIndex]? = some f ∧ f.Path = h0.FilePath
      ∧ f.Hunks[h0.HunkIndex]? = some h0 := by
  cases side with
  | none => simp [sideHunks] at hm
  | some d =>
    obtain ⟨t, ht⟩ := hp d rfl
    simp only [sideHunks, List.mem_flatMap] at hm
    obtain ⟨f, hf, hh⟩ := hm
    obtain ⟨i, hi⟩ := List.getElem?_of_mem hf
    obtain ⟨j, hj⟩ := List.getElem?_of_mem hh
    obtain ⟨h1, h2, h3⟩ := parseDiff_indexed t d ht i f hi j h0 hj
    exact ⟨d, f, rfl, by rw [h1]; exact hi, h3.symm, by rw [h2]; exact hj⟩

/-- C4: for a combined diff whose sides are parsed diff results (or nil), every
hunk `h` of `GetAllHunksCombined` resolves: `GetFileDiff h` is non-nil and is
the file at index `h.FileIndex` of the side selected by `h.Staged`, its `Path`
is `h.FilePath`, and `h` is that file's hunk at `h.HunkIndex` (up to the
`Staged` tag). -/
theorem getFileDiff_resolves (c : CombinedDiffResult)
    (hs : ∀ d, c.StagedDiff = some d → ∃ t, ParseDiff t = some d)
    (hu : ∀ d, c.UnstagedDiff = some d → ∃ t, ParseDiff t = some d)
    (h : Hunk) (hh : h ∈ c.GetAllHunksCombined) :
    ∃ d f, (if h.Staged then c.StagedDiff else c.UnstagedDiff) = some d
      ∧ d.Files[h.FileIndex]? = some f
      ∧ c.GetFileDiff h = some f
      ∧ f.Path = h.FilePath
      ∧ ∃ h0, f.Hunks[h.HunkIndex]? = some h0 ∧ h = { h0 with Staged := h.Staged } := by
  rw [getAllHunksCombined_eq, List.mem_append, List.mem_map, List.mem_map] at hh
  rcases hh with ⟨h0, hm, rfl⟩ | ⟨h0, hm, rfl⟩
  · obtain ⟨d, f, hd, hf, hpath, hhunk⟩ := sideHunks_resolve _ hs h0 hm
    refine ⟨d, f, by simpa [Hunk.tagged] using hd, by simpa [Hunk.tagged] using hf, ?_,
      by simpa [Hunk.tagged] using hpath, h0, by simpa [Hunk.tagged] using hhunk, rfl⟩
    simp only [CombinedDiffResult.GetFileDiff, Hunk.tagged, if_true, hd]
    exact hf
  · obtain ⟨d, f, hd, hf, hpath, hhunk⟩ := sideHunks_resolve _ hu h0 hm
    refine ⟨d, f, by simpa [Hunk.tagged] using hd, by simpa [Hunk.tagged] using hf, ?_,
      by simpa [Hunk.tagged] using hpath, h0, by simpa [Hunk.tagged] using hhunk, rfl⟩
    simp only [CombinedDiffResult.GetFileDiff, Hunk.tagged, Bool.false_eq_true, if_false, hd]
    exact hf

/-- C4, witness: the unstaged hunk of the combined sample diff resolves to
`file2.txt`. -/
theorem getFileDiff_resolves_witness :
    sampleUnstagedHunk ∈ sampleCombined.GetAllHunksCombined
      ∧ ∃ d f, (if sampleUnstagedHunk.Staged then sampleCombined.StagedDiff
                else sampleCombined.UnstagedDiff) = some d
        ∧ d.Files[sampleUnstagedHunk.FileIndex]? = some f
        ∧ sampleCombined.GetFileDiff sampleUnstagedHunk = some f
        ∧ f.Path = sampleUnstagedHunk.FilePath
        ∧ ∃ h0, f.Hunks[sampleUnstagedHunk.HunkIndex]? = some h0
          ∧ sampleUnstagedHunk = { h0 with Staged := sampleUnstagedHunk.Staged } :=
  have hm : sampleUnstagedHunk ∈ sampleCombined.GetAllHunksCombined := by decide
  ⟨hm, getFileDiff_resolves sampleCombined (fun _ hd => ⟨sampleStagedText, hd⟩)
    (fun _ hd => ⟨sampleUnstagedText, hd⟩) sampleUnstagedHunk hm⟩

/-! ## DiffParser: counts -/

end git

/-! ## Keymap argument parsing: the invalid case -/

theorem cutAt_eq_none_iff (sep : Char) (l : List Char) : cutAt sep l = none ↔ sep ∉ l := by
  induction l with
  | nil => simp [cutAt]
  | cons c cs ih =>
    by_cases hc : c = sep
    · simp [cutAt, hc]
    · have hne : ¬ sep = c := fun e => hc e.symm
      cases hcut : cutAt sep cs with
      | none =>
        have := ih.mp hcut
        simp [cutAt, hc, hcut, this, hne]
      | some ab =>
        have hmem : sep ∈ cs := by
          by_contra hn
          rw [ih.mpr hn] at hcut
          cases hcut
        simp [cutAt, hc, hcut, hmem]

theorem parseKeymapArg_of_cut_none (arg : String) (h : cutAt '=' arg.data = none) :
    ui.ParseKeymapArg arg = ("", "", false) := by
  by_cases hlen : 2 > arg.data.length + 1
  · have hd : arg.data = [] := by
      cases hd : arg.data with
      | nil => rfl
      | cons c cs =>
        rw [hd] at hlen
        simp only [List.length_cons] at hlen
        omega
    simp only [ui.ParseKeymapArg, SplitN, hd]
    simp [genSplitLoop]
  · simp only [ui.ParseKeymapArg, SplitN, hlen, if_false]
    simp [genSplitLoop, h]

theorem parseKeymapArg_of_cut_some (arg : String) (a b : List Char)
    (h : cutAt '=' arg.data = some (a, b)) :
    ui.ParseKeymapArg arg = (String.mk a, String.mk b, true) := by
  have hne : arg.data ≠ [] := by
    intro he
    rw [he] at h
    simp [cutAt] at h
  have hlen : ¬ (2 > arg.data.length + 1) := by
    have : 0 < arg.data.length := List.length_pos.mpr hne
    omega
  simp only [ui.ParseKeymapArg, SplitN, hlen, if_false]
  simp [genSplitLoop, h]

/-- C11: `ParseKeymapArg arg` returns `valid = false` if and only if `arg`
contains no `=`, and exactly then the result is `("", "", false)`: action and
key are both empty; this includes the empty argument. -/
theorem parseKeymapArg_invalid_iff (arg : String) :
    ((ui.ParseKeymapArg arg).2.2 = false ↔ '=' ∉ arg.data)
      ∧ ('=' ∉ arg.data ↔ ui.ParseKeymapArg arg = ("", "", false))
      ∧ ui.ParseKeymapArg "" = ("", "", false) := by
  have hempty : ui.ParseKeymapArg "" = ("", "", false) := by decide
  cases hcut : cutAt '=' arg.data with
  | none =>
    have hno : '=' ∉ arg.data := (cutAt_eq_none_iff _ _).mp hcut
    have hres := parseKeymapArg_of_cut_none arg hcut
    refine ⟨?_, ?_, hempty⟩
    · simp [hres, hno]
    · simp [hres, hno]
  | some ab =>
    obtain ⟨a, b⟩ := ab
    have hin : ¬ ('=' ∉ arg.data) := by
      intro hn
      rw [(cutAt_eq_none_iff _ _).mpr hn] at hcut
      cases hcut
    have hres := parseKeymapArg_of_cut_some arg a b hcut
    refine ⟨?_, ?_, hempty⟩
    · simp [hres, hin]
    · simp [hres, hin]

namespace ui

/-! ## Key bindings -/

/-- C15: `ListKeymapActions` is exactly the 29 action names, each exactly once. -/
theorem listKeymapActions_exact :
    ListKeymapActions
        = ["up", "down", "left", "right", "top", "bottom",
         "select", "back", "quit", "stage", "stage-all", "unstage",
         "unstage-all", "discard", "commit", "commit-edit", "push", "stash",
         "stash-all", "file-diff", "all-diffs", "branches", "stashes", "log",
         "visual", "help", "verbose-help", "new-branch", "delete"]
      ∧ ListKeymapActions.length = 29
      ∧ ListKeymapActions.Nodup := by
  refine ⟨rfl, rfl, ?_⟩
  decide

/-- C17: `DefaultKeymap` binds Up=k, Down=j, Left=h, Right=l, Top=g, Bottom=G,
Select=h, Back=h, Quit=q, Stage=a, StageAll=A, Unstage=u, UnstageAll=U,
Discard=d, Commit=c, CommitEdit=C, Push=p, Stash=s, StashAll=S, FileDiff=l,
AllDiffs=i, Branches=b, Stashes=e, Log=o, Visual=v, Help=?, VerboseHelp=/,
NewBranch=n, Delete=d; every one of the 29 fields is non-empty. -/
theorem defaultKeymap_values :
    (ui.DefaultKeymap.Up = "k"
      ∧ ui.DefaultKeymap.Down = "j"
      ∧ ui.DefaultKeymap.Left = "h"
      ∧ ui.DefaultKeymap.Right = "l"
      ∧ ui.DefaultKeymap.Top = "g"
      ∧ ui.DefaultKeymap.Bottom = "G"
      ∧ ui.DefaultKeymap.Select = "h"
      ∧ ui.DefaultKeymap.Back = "h"
      ∧ ui.DefaultKeymap.Quit = "q"
      ∧ ui.DefaultKeymap.Stage = "a"
      ∧ ui.DefaultKeymap.StageAll = "A"
      ∧ ui.DefaultKeymap.Unstage = "u"
      ∧ ui.DefaultKeymap.UnstageAll = "U"
      ∧ ui.DefaultKeymap.Discard = "d"
      ∧ ui.DefaultKeymap.Commit = "c"
      ∧ ui.DefaultKeymap.CommitEdit = "C"
      ∧ ui.DefaultKeymap.Push = "p"
      ∧ ui.DefaultKeymap.Stash = "s"
      ∧ ui.DefaultKeymap.StashAll = "S"
      ∧ ui.DefaultKeymap.FileDiff = "l"
      ∧ ui.DefaultKeymap.AllDiffs = "i"
      ∧ ui.DefaultKeymap.Branches = "b"
      ∧ ui.DefaultKeymap.Stashes = "e"
      ∧ ui.DefaultKeymap.Log = "o"
      ∧ ui.DefaultKeymap.Visual = "v"
      ∧ ui.DefaultKeymap.Help = "?"
      ∧ ui.DefaultKeymap.VerboseHelp = "/"
      ∧ ui.DefaultKeymap.NewBranch = "n"
      ∧ ui.DefaultKeymap.Delete = "d")
      ∧ ui.DefaultKeymap.Up ≠ ""
      ∧ ui.DefaultKeymap.Down ≠ ""
      ∧ ui.DefaultKeymap.Left ≠ ""
      ∧ ui.DefaultKeymap.Right ≠ ""
      ∧ ui.DefaultKeymap.Top ≠ ""
      ∧ ui.DefaultKeymap.Bottom ≠ ""
      ∧ ui.DefaultKeymap.Select ≠ ""
      ∧ ui.DefaultKeymap.Back ≠ ""
      ∧ ui.DefaultKeymap.Quit ≠ ""
      ∧ ui.DefaultKeymap.Stage ≠ ""
      ∧ ui.DefaultKeymap.StageAll ≠ ""
      ∧ ui.DefaultKeymap.Unstage ≠ ""
      ∧ ui.DefaultKeymap.UnstageAll ≠ ""
      ∧ ui.DefaultKeymap.Discard ≠ ""
      ∧ ui.DefaultKeymap.Commit ≠ ""
      ∧ ui.DefaultKeymap.CommitEdit ≠ ""
      ∧ ui.DefaultKeymap.Push ≠ ""
      ∧ ui.DefaultKeymap.Stash ≠ ""
      ∧ ui.DefaultKeymap.StashAll ≠ ""
      ∧ ui.DefaultKeymap.FileDiff ≠ ""
      ∧ ui.DefaultKeymap.AllDiffs ≠ ""
      ∧ ui.DefaultKeymap.Branches ≠ ""
      ∧ ui.DefaultKeymap.Stashes ≠ ""
      ∧ ui.DefaultKeymap.Log ≠ ""
      ∧ ui.DefaultKeymap.Visual ≠ ""
      ∧ ui.DefaultKeymap.Help ≠ ""
      ∧ ui.DefaultKeymap.VerboseHelp ≠ ""
      ∧ ui.DefaultKeymap.NewBranch ≠ ""
      ∧ ui.DefaultKeymap.Delete ≠ "" := by
  refine ⟨?_, ?_⟩ <;> simp [DefaultKeymap]

theorem applyOverride_flag_iff (k : Keymap) (action key : String) :
    (k.ApplyOverride action key).2 = true ↔ action ∈ ListKeymapActions := by
  constructor
  · intro h
    by_contra hn
    simp only [ListKeymapActions, List.mem_cons, List.mem_singleton, List.not_mem_nil,
      or_false, not_or] at hn
    simp [Keymap.ApplyOverride, hn] at h
  · intro h
    simp only [ListKeymapActions, List.mem_cons, List.mem_singleton, List.not_mem_nil,
      or_false] at h
    rcases h with h | h | h | h | h | h | h | h | h | h | h | h | h | h | h | h | h | h | h | h
      | h | h | h | h | h | h | h | h | h <;> subst h <;> rfl

/-- C12: `ApplyOverride action key` returns true if and only if `action` is one
of the names of `ListKeymapActions`: every listed action can be applied, and
every other string, the empty string included, is rejected with false. -/
theorem applyOverride_true_iff (k : Keymap) (action key : String) :
    ((k.ApplyOverride action key).2 = true ↔ action ∈ ListKeymapActions)
      ∧ ((k.ApplyOverride action key).2 = false ↔ action ∉ ListKeymapActions)
      ∧ ListKeymapActions.all (fun a => (k.ApplyOverride a key).2) = true
      ∧ (k.ApplyOverride "" key).2 = false := by
  refine ⟨applyOverride_flag_iff k action key, ?_, ?_, ?_⟩
  · rw [← applyOverride_flag_iff k action key]
    simp
  · rw [List.all_eq_true]
    intro a ha
    exact (applyOverride_flag_iff k a key).mpr ha
  · rw [← Bool.not_eq_true, applyOverride_flag_iff]
    decide

/-- C13: for each of the 29 action names and every key, after
`ApplyOverride action key` the field of that action holds exactly `key`. -/
theorem applyOverride_sets_field (k : Keymap) (key : String) :
    (k.ApplyOverride "up" key).1.Up = key
      ∧ (k.ApplyOverride "down" key).1.Down = key
      ∧ (k.ApplyOverride "left" key).1.Left = key
      ∧ (k.ApplyOverride "right" key).1.Right = key
      ∧ (k.ApplyOverride "top" key).1.Top = key
      ∧ (k.ApplyOverride "bottom" key).1.Bottom = key
      ∧ (k.ApplyOverride "select" key).1.Select = key
      ∧ (k.ApplyOverride "back" key).1.Back = key
      ∧ (k.ApplyOverride "quit" key).1.Quit = key
      ∧ (k.ApplyOverride "stage" key).1.Stage = key
      ∧ (k.ApplyOverride "stage-all" key).1.StageAll = key
      ∧ (k.ApplyOverride "unstage" key).1.Unstage = key
      ∧ (k.ApplyOverride "unstage-all" key).1.UnstageAll = key
      ∧ (k.ApplyOverride "discard" key).1.Discard = key
      ∧ (k.ApplyOverride "commit" key).1.Commit = key
      ∧ (k.ApplyOverride "commit-edit" key).1.CommitEdit = key
      ∧ (k.ApplyOverride "push" key).1.Push = key
      ∧ (k.ApplyOverride "stash" key).1.Stash = key
      ∧ (k.ApplyOverride "stash-all" key).1.StashAll = key
      ∧ (k.ApplyOverride "file-diff" key).1.FileDiff = key
      ∧ (k.ApplyOverride "all-diffs" key).1.AllDiffs = key
      ∧ (k.ApplyOverride "branches" key).1.Branches = key
      ∧ (k.ApplyOverride "stashes" key).1.Stashes = key
      ∧ (k.ApplyOverride "log" key).1.Log = key
      ∧ (k.ApplyOverride "visual" key).1.Visual = key
      ∧ (k.ApplyOverride "help" key).1.Help = key
      ∧ (k.ApplyOverride "verbose-help" key).1.VerboseHelp = key
      ∧ (k.ApplyOverride "new-branch" key).1.NewBranch = key
      ∧ (k.ApplyOverride "delete" key).1.Delete = key := by
  simp [Keymap.ApplyOverride]

theorem binding_applyOverride_self (k : Keymap) (action key : String)
    (h : action ∈ ListKeymapActions) : (k.ApplyOverride action key).1.binding action = some key := by
  simp only [ListKeymapActions, List.mem_cons, List.mem_singleton, List.not_mem_nil,
    or_false] at h
  rcases h with h | h | h | h | h | h | h | h | h | h | h | h | h | h | h | h | h | h | h | h
    | h | h | h | h | h | h | h | h | h <;> subst h <;> rfl

theorem binding_applyOverride_other (k : Keymap) (action key b : String) (hb : b ≠ action) :
    (k.ApplyOverride action key).1.binding b = k.binding b := by
  by_cases h : action ∈ ListKeymapActions
  · simp only [ListKeymapActions, List.mem_cons, List.mem_singleton, List.not_mem_nil,
      or_false] at h
    rcases h with h | h | h | h | h | h | h | h | h | h | h | h | h | h | h | h | h | h | h | h
      | h | h | h | h | h | h | h | h | h <;> subst h <;>
      simp [Keymap.ApplyOverride, Keymap.binding, hb]
  · simp only [ListKeymapActions, List.mem_cons, List.mem_singleton, List.not_mem_nil,
      or_false, not_or] at h
    simp [Keymap.ApplyOverride, h]

theorem applyAll_binding_other (k : Keymap) (os : List (String × String)) (b : String)
    (hb : b ∉ os.map Prod.fst) : (k.applyAll os).binding b = k.binding b := by
  induction os generalizing k with
  | nil => rfl
  | cons o rest ih =>
    obtain ⟨a, key⟩ := o
    simp only [List.map_cons, List.mem_cons, not_or] at hb
    simp only [Keymap.applyAll]
    rw [ih _ hb.2, binding_applyOverride_other k a key b hb.1]

theorem applyAll_binding_self (k : Keymap) (os : List (String × String))
    (hv : ∀ o ∈ os, o.1 ∈ ListKeymapActions) (hd : (os.map Prod.fst).Nodup) :
    ∀ o ∈ os, (k.applyAll os).binding o.1 = some o.2 := by
  induction os generalizing k with
  | nil => intro o ho; simp at ho
  | cons o rest ih =>
    obtain ⟨a, key⟩ := o
    simp only [List.map_cons, List.nodup_cons] at hd
    intro x hx
    simp only [List.mem_cons] at hx
    simp only [Keymap.applyAll]
    rcases hx with rfl | hx
    · rw [applyAll_binding_other _ rest a hd.1]
      exact binding_applyOverride_self k a key (hv (a, key) (by simp))
    · exact ih _ (fun y hy => hv y (by simp [hy])) hd.2 x hx

/-- C14: `ApplyOverride action key` on a valid action changes only the field of
that action, the other 28 fields keep their values; so after a sequence of
overrides on distinct valid actions each of them holds its own key, and the
binding of every other action is what it was. -/
theorem applyOverride_frame (k : Keymap) (key : String) (os : List (String × String))
    (hv : ∀ o ∈ os, o.1 ∈ ListKeymapActions) (hd : (os.map Prod.fst).Nodup) :
    (∀ o ∈ os, (k.applyAll os).binding o.1 = some o.2)
      ∧ (∀ b, b ∉ os.map Prod.fst → (k.applyAll os).binding b = k.binding b)
      ∧ (k.ApplyOverride "up" key).1 = { k with Up := key }
      ∧ (k.ApplyOverride "down" key).1 = { k with Down := key }
      ∧ (k.ApplyOverride "left" key).1 = { k with Left := key }
      ∧ (k.ApplyOverride "right" key).1 = { k with Right := key }
      ∧ (k.ApplyOverride "top" key).1 = { k with Top := key }
      ∧ (k.ApplyOverride "bottom" key).1 = { k with Bottom := key }
      ∧ (k.ApplyOverride "select" key).1 = { k with Select := key }
      ∧ (k.ApplyOverride "back" key).1 = { k with Back := key }
      ∧ (k.ApplyOverride "quit" key).1 = { k with Quit := key }
      ∧ (k.ApplyOverride "stage" key).1 = { k with Stage := key }
      ∧ (k.ApplyOverride "stage-all" key).1 = { k with StageAll := key }
      ∧ (k.ApplyOverride "unstage" key).1 = { k with Unstage := key }
      ∧ (k.ApplyOverride "unstage-all" key).1 = { k with UnstageAll := key }
      ∧ (k.ApplyOverride "discard" key).1 = { k with Discard := key }
      ∧ (k.ApplyOverride "commit" key).1 = { k with Commit := key }
      ∧ (k.ApplyOverride "commit-edit" key).1 = { k with CommitEdit := key }
      ∧ (k.ApplyOverride "push" key).1 = { k with Push := key }
      ∧ (k.ApplyOverride "stash" key).1 = { k with Stash := key }
      ∧ (k.ApplyOverride "stash-all" key).1 = { k with StashAll := key }
      ∧ (k.ApplyOverride "file-diff" key).1 = { k with FileDiff := key }
      ∧ (k.ApplyOverride "all-diffs" key).1 = { k with AllDiffs := key }
      ∧ (k.ApplyOverride "branches" key).1 = { k with Branches := key }
      ∧ (k.ApplyOverride "stashes" key).1 = { k with Stashes := key }
      ∧ (k.ApplyOverride "log" key).1 = { k with Log := key }
      ∧ (k.ApplyOverride "visual" key).1 = { k with Visual := key }
      ∧ (k.ApplyOverride "help" key).1 = { k with Help := key }
      ∧ (k.ApplyOverride "verbose-help" key).1 = { k with VerboseHelp := key }
      ∧ (k.ApplyOverride "new-branch" key).1 = { k with NewBranch := key }
      ∧ (k.ApplyOverride "delete" key).1 = { k with Delete := key } := by
  refine ⟨applyAll_binding_self k os hv hd, fun b hb => applyAll_binding_other k os b hb, ?_⟩
  simp [Keymap.ApplyOverride]

/-- C14, witness: the four overrides up=w, down=s, left=a, right=d on the
default keymap. -/
theorem applyOverride_frame_witness :
    (∀ o ∈ sampleOverrides, o.1 ∈ ListKeymapActions)
      ∧ (sampleOverrides.map Prod.fst).Nodup
      ∧ (∀ o ∈ sampleOverrides, (DefaultKeymap.applyAll sampleOverrides).binding o.1 = some o.2)
      ∧ (DefaultKeymap.applyAll sampleOverrides).binding "stage" = DefaultKeymap.binding "stage" :=
  have hv : ∀ o ∈ sampleOverrides, o.1 ∈ ListKeymapActions := by decide
  have hd : (sampleOverrides.map Prod.fst).Nodup := by decide
  ⟨hv, hd, (applyOverride_frame DefaultKeymap "w" sampleOverrides hv hd).1,
    (applyOverride_frame DefaultKeymap "w" sampleOverrides hv hd).2.1 "stage" (by decide)⟩

/-! ## The log view: scrolling -/

theorem visibleLines_pos (m : LogModel) : 1 ≤ m.visibleLines := by
  simp only [LogModel.visibleLines]
  split_ifs <;> omega

theorem maxOffset_nonneg (m : LogModel) : 0 ≤ m.maxOffset := by
  simp only [LogModel.maxOffset]
  split_ifs <;> omega

theorem maxOffset_eq_max (m : LogModel) :
    m.maxOffset = max 0 ((m.lines.length : Int) - m.visibleLines) := by
  simp only [LogModel.maxOffset]
  split_ifs <;> omega

theorem update_scrollOffset_nonneg (keys : Keymap) (m : LogModel) (msg : Msg)
    (h : 0 ≤ m.scrollOffset) : 0 ≤ (m.Update keys msg).1.scrollOffset := by
  have hmax := maxOffset_nonneg m
  have hvis := visibleLines_pos m
  have hdiv : 0 ≤ Int.tdiv m.visibleLines 2 := Int.tdiv_nonneg (by omega) (by omega)
  cases msg with
  | KeyMsg key =>
    simp only [LogModel.Update]
    split_ifs <;> simp only <;> omega
  | WindowSizeMsg w hgt => exact h
  | logMsg content => exact h
  | errMsg e => exact h
  | other => exact h

theorem run_scrollOffset_nonneg (keys : Keymap) (msgs : List Msg) (m : LogModel)
    (h : 0 ≤ m.scrollOffset) : 0 ≤ (m.run keys msgs).scrollOffset := by
  induction msgs generalizing m with
  | nil => exact h
  | cons msg rest ih => exact ih _ (update_scrollOffset_nonneg keys m msg h)

/-- C18: in every state reached from `NewLogModel`, `NewLogModelWithSize` or
`NewLogModelWithOptions` by any sequence of `Update` messages (keys, resizes of
any size, log contents of any length, errors, other messages), under any
keymap, `scrollOffset` is not negative. -/
theorem scrollOffset_never_negative (keys : Keymap) (width height : Int) (verbose : Bool)
    (msgs : List Msg) :
    0 ≤ (NewLogModel.run keys msgs).scrollOffset
      ∧ 0 ≤ ((NewLogModelWithSize width height).run keys msgs).scrollOffset
      ∧ 0 ≤ ((NewLogModelWithOptions width height verbose).run keys msgs).scrollOffset :=
  ⟨run_scrollOffset_nonneg keys msgs _ (le_refl _),
    run_scrollOffset_nonneg keys msgs _ (le_refl _),
    run_scrollOffset_nonneg keys msgs _ (le_refl _)⟩

/-- C19: with the default keymap and outside help mode, Down (`j` or the down
arrow) sets `scrollOffset` to `min (scrollOffset + 1) maxOffset` and Up (`k` or
the up arrow) sets it to `max (scrollOffset - 1) 0`, where
`maxOffset = max 0 (len lines - visibleLines)`, and no other field changes; so
Up at offset 0 stays at 0 and Down at `maxOffset` stays at `maxOffset`. -/
theorem update_down_up (m : LogModel) (hh : m.showHelp = false) :
    m.Update DefaultKeymap (.KeyMsg "j")
        = (m.scrolledTo (min (m.scrollOffset + 1) (max 0 (m.lines.length - m.visibleLines))), none)
      ∧ m.Update DefaultKeymap (.KeyMsg "down")
        = (m.scrolledTo (min (m.scrollOffset + 1) (max 0 (m.lines.length - m.visibleLines))), none)
      ∧ m.Update DefaultKeymap (.KeyMsg "k") = (m.scrolledTo (max (m.scrollOffset - 1) 0), none)
      ∧ m.Update DefaultKeymap (.KeyMsg "up") = (m.scrolledTo (max (m.scrollOffset - 1) 0), none)
      ∧ ((m.scrolledTo 0).Update DefaultKeymap (.KeyMsg "k")).1.scrollOffset = 0
      ∧ ((m.scrolledTo 0).Update DefaultKeymap (.KeyMsg "up")).1.scrollOffset = 0
      ∧ ((m.scrolledTo m.maxOffset).Update DefaultKeymap (.KeyMsg "j")).1.scrollOffset
          = m.maxOffset
      ∧ ((m.scrolledTo m.maxOffset).Update DefaultKeymap (.KeyMsg "down")).1.scrollOffset
          = m.maxOffset
      ∧ m.maxOffset = max 0 (m.lines.length - m.visibleLines) := by
  have hmax := maxOffset_eq_max m
  have hm : ∀ x : Int, (m.scrolledTo x).maxOffset = m.maxOffset := fun _ => rfl
  have hs : ∀ x : Int, (m.scrolledTo x).showHelp = false := fun _ => hh
  refine ⟨?_, ?_, ?_, ?_, ?_, ?_, ?_, ?_, hmax⟩
  · simp [LogModel.Update, hh, DefaultKeymap, hmax, LogModel.scrolledTo]
  · simp [LogModel.Update, hh, DefaultKeymap, hmax, LogModel.scrolledTo]
  · simp [LogModel.Update, hh, DefaultKeymap, LogModel.scrolledTo]
  · simp [LogModel.Update, hh, DefaultKeymap, LogModel.scrolledTo]
  · simp [LogModel.Update, hs, DefaultKeymap]
    simp [LogModel.scrolledTo]
  · simp [LogModel.Update, hs, DefaultKeymap]
    simp [LogModel.scrolledTo]
  · simp [LogModel.Update, hs, DefaultKeymap, hm]
    simp [LogModel.scrolledTo]
  · simp [LogModel.Update, hs, DefaultKeymap, hm]
    simp [LogModel.scrolledTo]

/-- C19, witness: `j` on the model of `TestLogModelNavigation` scrolls to 1. -/
theorem update_down_up_witness :
    sampleLogModel.showHelp = false
      ∧ (sampleLogModel.Update DefaultKeymap (.KeyMsg "j")).1.scrollOffset = 1 :=
  ⟨rfl, (congrArg (fun r => r.1.scrollOffset) (update_down_up sampleLogModel rfl).1).trans
    (by decide)⟩

/-- C20: with the default keymap and outside help mode, Bottom (`G`) sets
`scrollOffset` to `max 0 (len lines - visibleLines)` for the visible-line count
that `Update` computes, and changes nothing else; the new offset is 0 whenever
the lines fit in that many rows, and otherwise the window of `visibleLines`
rows that starts at it ends exactly at the last line; Top (`g`) sets
`scrollOffset` to 0. -/
theorem update_bottom_top (m : LogModel) (hh : m.showHelp = false) :
    m.Update DefaultKeymap (.KeyMsg "G")
        = (m.scrolledTo (max 0 (m.lines.length - m.visibleLines)), none)
      ∧ m.Update DefaultKeymap (.KeyMsg "g") = (m.scrolledTo 0, none)
      ∧ m.visibleLines
          = (if m.height - (if m.showVerboseHelp then 6 else 4) < 1 then 10
             else m.height - (if m.showVerboseHelp then 6 else 4))
      ∧ ((m.lines.length : Int) ≤ m.visibleLines →
          (m.Update DefaultKeymap (.KeyMsg "G")).1.scrollOffset = 0)
      ∧ (m.visibleLines < (m.lines.length : Int) →
          (m.Update DefaultKeymap (.KeyMsg "G")).1.scrollOffset + m.visibleLines
            = m.lines.length) := by
  have hmax := maxOffset_eq_max m
  have hG : m.Update DefaultKeymap (.KeyMsg "G")
      = (m.scrolledTo (max 0 (m.lines.length - m.visibleLines)), none) := by
    simp [LogModel.Update, hh, DefaultKeymap, hmax, LogModel.scrolledTo]
  refine ⟨hG, ?_, ?_, ?_, ?_⟩
  · simp [LogModel.Update, hh, DefaultKeymap, LogModel.scrolledTo]
  · simp only [LogModel.visibleLines]
  · intro hfit
    rw [hG]
    simp only [LogModel.scrolledTo]
    omega
  · intro hmore
    rw [hG]
    simp only [LogModel.scrolledTo]
    omega

/-- C20, witness: `G` on the model of `TestLogModelNavigation` (100 lines, 6
visible) scrolls to 94, `g` back to 0. -/
theorem update_bottom_top_witness :
    sampleLogModel.showHelp = false
      ∧ (sampleLogModel.Update DefaultKeymap (.KeyMsg "G")).1.scrollOffset = 94
      ∧ (sampleLogModel.Update DefaultKeymap (.KeyMsg "g")).1.scrollOffset = 0 :=
  ⟨rfl,
    (congrArg (fun r => r.1.scrollOffset) (update_bottom_top sampleLogModel rfl).1).trans
      (by decide),
    (congrArg (fun r => r.1.scrollOffset) (update_bottom_top sampleLogModel rfl).2.1).trans
      (by decide)⟩

end ui

namespace ui

/-! ## The log view: resize, log content, help mode -/

/-- C24: `Update` on `WindowSizeMsg w h` yields the model with `width = w` and
`height = h` and with `lines`, `scrollOffset`, `showHelp`, `showVerboseHelp`
and `err` unchanged, and returns no command; this for every keymap. -/
theorem update_windowSize (keys : Keymap) (m : LogModel) (w h : Int) :
    m.Update keys (.WindowSizeMsg w h)
        = ({ lines := m.lines, scrollOffset := m.scrollOffset, showHelp := m.showHelp,
             showVerboseHelp := m.showVerboseHelp, err := m.err, width := w, height := h },
           none)
      ∧ (m.Update keys (.WindowSizeMsg w h)).1.width = w
      ∧ (m.Update keys (.WindowSizeMsg w h)).1.height = h
      ∧ (m.Update keys (.WindowSizeMsg w h)).1.lines = m.lines
      ∧ (m.Update keys (.WindowSizeMsg w h)).1.scrollOffset = m.scrollOffset
      ∧ (m.Update keys (.WindowSizeMsg w h)).1.showHelp = m.showHelp
      ∧ (m.Update keys (.WindowSizeMsg w h)).1.showVerboseHelp = m.showVerboseHelp
      ∧ (m.Update keys (.WindowSizeMsg w h)).1.err = m.err
      ∧ (m.Update keys (.WindowSizeMsg w h)).2 = none :=
  ⟨rfl, rfl, rfl, rfl, rfl, rfl, rfl, rfl, rfl⟩

/-- C28: in help mode every key leaves `scrollOffset`, `lines`, `width`, `height`,
`showVerboseHelp` (and `err`) unchanged, and `showHelp` is cleared if and only
if the key is the Help key, `esc` or the Quit key; outside help mode the Help
key sets `showHelp` and changes nothing else; this for every keymap. -/
theorem update_help_mode (keys : Keymap) (m : LogModel) (key : String) :
    (m.withHelp true).Update keys (.KeyMsg key)
        = (m.withHelp (!decide (key = keys.Help ∨ key = "esc" ∨ key = keys.Quit)), none)
      ∧ (((m.withHelp true).Update keys (.KeyMsg key)).1.showHelp = false
          ↔ (key = keys.Help ∨ key = "esc" ∨ key = keys.Quit))
      ∧ (m.withHelp false).Update keys (.KeyMsg keys.Help) = (m.withHelp true, none) := by
  refine ⟨?_, ?_, ?_⟩
  · by_cases h : key = keys.Help ∨ key = "esc" ∨ key = keys.Quit
    · simp [LogModel.Update, LogModel.withHelp, h]
    · simp [LogModel.Update, LogModel.withHelp, h]
  · by_cases h : key = keys.Help ∨ key = "esc" ∨ key = keys.Quit
    · simp [LogModel.Update, LogModel.withHelp, h]
    · simp [LogModel.Update, LogModel.withHelp, h]
  · simp [LogModel.Update, LogModel.withHelp]

/-- C29: for an action string that is not one of the 29 names,
`ApplyOverride action key` returns false and the keymap is unchanged. -/
theorem applyOverride_unknown (k : Keymap) (action key : String)
    (h : action ∉ ListKeymapActions) : k.ApplyOverride action key = (k, false) := by
  simp only [ListKeymapActions, List.mem_cons, List.mem_singleton, List.not_mem_nil,
    or_false, not_or] at h
  simp [Keymap.ApplyOverride, h]

/-- C29, witness: `invalid-action` on the default keymap. -/
theorem applyOverride_unknown_witness :
    "invalid-action" ∉ ListKeymapActions
      ∧ DefaultKeymap.ApplyOverride "invalid-action" "x" = (DefaultKeymap, false) :=
  ⟨by decide, applyOverride_unknown DefaultKeymap "invalid-action" "x" (by decide)⟩

end ui

/-! ## `strings.Split` and `strings.Join` -/

theorem cutAt_eq_some (sep : Char) (s a b : List Char) (h : cutAt sep s = some (a, b)) :
    s = a ++ sep :: b ∧ sep ∉ a := by
  induction s generalizing a with
  | nil => simp [cutAt] at h
  | cons c cs ih =>
    by_cases hc : c = sep
    · simp only [cutAt, hc, if_true, Option.some.injEq, Prod.mk.injEq] at h
      obtain ⟨rfl, rfl⟩ := h
      simp [hc]
    · simp only [cutAt, hc, if_false] at h
      cases hcut : cutAt sep cs with
      | none => simp [hcut] at h
      | some ab =>
        obtain ⟨a1, b1⟩ := ab
        simp only [hcut, Option.some.injEq, Prod.mk.injEq] at h
        obtain ⟨rfl, rfl⟩ := h
        obtain ⟨h1, h2⟩ := ih a1 hcut
        refine ⟨by rw [h1]; rfl, ?_⟩
        simp only [List.mem_cons, not_or]
        exact ⟨fun e => hc e.symm, h2⟩

theorem genSplitLoop_count (sep : Char) (n : Nat) (s : List Char) (h : s.count sep = n) :
    (genSplitLoop sep n s).length = n + 1
      ∧ Join ((genSplitLoop sep n s).map String.mk) (String.mk [sep]) = String.mk s := by
  induction n generalizing s with
  | zero => simp [genSplitLoop, Join]
  | succ n ih =>
    have hmem : sep ∈ s := by
      have : 0 < s.count sep := by omega
      exact List.count_pos_iff.mp this
    cases hcut : cutAt sep s with
    | none => exact absurd hmem ((cutAt_eq_none_iff sep s).mp hcut)
    | some ab =>
      obtain ⟨a, b⟩ := ab
      obtain ⟨hs, ha⟩ := cutAt_eq_some sep s a b hcut
      have hb : b.count sep = n := by
        rw [hs] at h
        simp only [List.count_append, List.count_cons_self, List.count_eq_zero_of_not_mem ha] at h
        omega
      obtain ⟨hlen, hjoin⟩ := ih b hb
      simp only [genSplitLoop, hcut, List.length_cons, hlen, List.map_cons, true_and]
      cases hg : genSplitLoop sep n b with
      | nil => rw [hg] at hlen; simp at hlen
      | cons x xs =>
        rw [hg] at hjoin
        simp only [List.map_cons] at hjoin ⊢
        simp only [Join]
        rw [hjoin, hs]
        apply String.ext
        simp [String.data_append]

namespace ui

/-- C23: `Update` on `logMsg content` sets `lines` to `strings.Split(content, "\n")`
and changes nothing else (no command): the number of lines is the number of
newline characters plus one, hence never zero (one empty line for empty
content), and joining the lines with `"\n"` gives back `content`. -/
theorem update_logMsg (keys : Keymap) (m : LogModel) (content : String) :
    m.Update keys (.logMsg content)
        = ({ lines := Split content '\n', scrollOffset := m.scrollOffset, showHelp := m.showHelp,
             showVerboseHelp := m.showVerboseHelp, err := m.err, width := m.width,
             height := m.height }, none)
      ∧ (m.Update keys (.logMsg content)).1.lines.length = content.data.count '\n' + 1
      ∧ (m.Update keys (.logMsg content)).1.lines ≠ []
      ∧ Join (m.Update keys (.logMsg content)).1.lines "\n" = content
      ∧ (m.Update keys (.logMsg "")).1.lines = [""] := by
  obtain ⟨hlen, hjoin⟩ := genSplitLoop_count '\n' (content.data.count '\n') content.data rfl
  have hl : (m.Update keys (.logMsg content)).1.lines = Split content '\n' := rfl
  refine ⟨rfl, ?_, ?_, ?_, ?_⟩
  · rw [hl]
    simpa [Split] using hlen
  · rw [hl]
    intro he
    have : (Split content '\n').length = 0 := by rw [he]; rfl
    simp [Split, hlen] at this
  · rw [hl]
    exact hjoin
  · have e : Split "" '\n' = [""] := by decide
    exact e

/-! ## The log view: anchoring at the bottom -/

theorem count_repeatChars_newline (n : Nat) :
    repeatChars n ['\n'] = List.replicate n '\n' := by
  induction n with
  | zero => rfl
  | succ n ih => simp [repeatChars, ih, List.replicate_succ]

/-- C25: with `n` the number of newlines of `content`, `anchorBottom` returns
`content` unchanged when `height ≤ n`; otherwise the repeat count
`height - n - 1` is not negative and the result is `content` prefixed by
exactly that many newlines: it ends with `content`, contains exactly
`height - 1` newlines, and begins with a newline whenever `n < height - 1`. -/
theorem anchorBottom_spec (m : LogModel) (content : String) :
    (m.height ≤ (content.data.count '\n' : Int) → m.anchorBottom content = some content)
      ∧ ((content.data.count '\n' : Int) < m.height →
          0 ≤ m.height - (content.data.count '\n' : Int) - 1
            ∧ m.anchorBottom content
              = some (String.mk (List.replicate
                    (m.height - (content.data.count '\n' : Int) - 1).toNat '\n') ++ content)
            ∧ ∃ r, m.anchorBottom content = some r
                ∧ content.data <:+ r.data
                ∧ ((r.data.count '\n' : Int) = m.height - 1)
                ∧ ((content.data.count '\n' : Int) < m.height - 1 → r.data.head? = some '\n')) := by
  constructor
  · intro h
    simp [LogModel.anchorBottom, Count, h]
  · intro h
    have hpad : ¬ (m.height - (content.data.count '\n' : Int) - 1 < 0) := by omega
    have hnot : ¬ (m.height ≤ (content.data.count '\n' : Int)) := by omega
    have hres : m.anchorBottom content
        = some (String.mk (List.replicate
            (m.height - (content.data.count '\n' : Int) - 1).toNat '\n') ++ content) := by
      have e : ("\n" : String).data = ['\n'] := rfl
      simp only [LogModel.anchorBottom, Count, hnot, if_false, Repeat, hpad, e,
        count_repeatChars_newline]
    refine ⟨by omega, hres, _, hres, ?_, ?_, ?_⟩
    · simp only [String.data_append]
      exact List.suffix_append _ _
    · simp only [String.data_append, List.count_append, List.count_replicate_self]
      push_cast
      omega
    · intro hlt
      have hpos : 0 < (m.height - (content.data.count '\n' : Int) - 1).toNat := by omega
      obtain ⟨k, hk⟩ := Nat.exists_eq_succ_of_ne_zero (Nat.pos_iff_ne_zero.mp hpos)
      simp [String.data_append, hk, List.replicate_succ]

/-- C25, witness: the model and content of `TestLogModelAnchorBottom`. -/
theorem anchorBottom_spec_witness :
    (NewLogModelWithSize 100 20).anchorBottom "line1\nline2\n"
        = some (String.mk (List.replicate 17 '\n') ++ "line1\nline2\n")
      ∧ (NewLogModelWithSize 100 2).anchorBottom "line1\nline2\n" = some "line1\nline2\n" :=
  ⟨((anchorBottom_spec (NewLogModelWithSize 100 20) "line1\nline2\n").2 (by decide)).2.1.trans
      (by decide),
    (anchorBottom_spec (NewLogModelWithSize 100 2) "line1\nline2\n").1 (by decide)⟩

end ui

namespace ui

/-! ## The log view: half pages and the visible-line count -/

/-- C21, counterexample: with one visible line (height 5) and 10 lines, `ctrl+d`
at offset 0 (below the maximum offset 9) leaves the offset at 0, and `ctrl+u`
at offset 3 leaves it at 3; and from the negative offset -20 `ctrl+d` on the
20-row model gives -12, outside the range. -/
theorem halfPage_not_strict :
    oneRowLogModel.showHelp = false
      ∧ oneRowLogModel.scrollOffset < oneRowLogModel.maxOffset
      ∧ ¬ (oneRowLogModel.scrollOffset
            < (oneRowLogModel.Update DefaultKeymap (.KeyMsg "ctrl+d")).1.scrollOffset)
      ∧ 0 < (oneRowLogModel.scrolledTo 3).scrollOffset
      ∧ ¬ (((oneRowLogModel.scrolledTo 3).Update DefaultKeymap (.KeyMsg "ctrl+u")).1.scrollOffset
            < (oneRowLogModel.scrolledTo 3).scrollOffset)
      ∧ ¬ (0 ≤ ((pageLogModel.scrolledTo (-20)).Update DefaultKeymap
                  (.KeyMsg "ctrl+d")).1.scrollOffset) := by
  decide

/-- C21, amended: outside help mode, with the default keymap: when the
visible-line count is at least 2 (every height but `reservedLines + 1`),
`ctrl+d` strictly increases a `scrollOffset` below the maximum offset and
`ctrl+u` strictly decreases a `scrollOffset` above 0; from a `scrollOffset ≥ 0`
neither leaves the range from 0 to `max scrollOffset maxOffset`. -/
theorem halfPage_moves (m : LogModel) (hh : m.showHelp = false) :
    (2 ≤ m.visibleLines → m.scrollOffset < m.maxOffset →
        m.scrollOffset < (m.Update DefaultKeymap (.KeyMsg "ctrl+d")).1.scrollOffset)
      ∧ (2 ≤ m.visibleLines → 0 < m.scrollOffset →
        (m.Update DefaultKeymap (.KeyMsg "ctrl+u")).1.scrollOffset < m.scrollOffset)
      ∧ (0 ≤ m.scrollOffset →
        0 ≤ (m.Update DefaultKeymap (.KeyMsg "ctrl+d")).1.scrollOffset
          ∧ (m.Update DefaultKeymap (.KeyMsg "ctrl+d")).1.scrollOffset
              ≤ max m.scrollOffset m.maxOffset
          ∧ 0 ≤ (m.Update DefaultKeymap (.KeyMsg "ctrl+u")).1.scrollOffset
          ∧ (m.Update DefaultKeymap (.KeyMsg "ctrl+u")).1.scrollOffset
              ≤ max m.scrollOffset m.maxOffset)
      ∧ (2 ≤ m.visibleLines ↔ m.height - (if m.showVerboseHelp then 6 else 4) ≠ 1) := by
  have hvis := visibleLines_pos m
  have hdiv0 : 0 ≤ Int.tdiv m.visibleLines 2 := Int.tdiv_nonneg (by omega) (by omega)
  have hdiv : Int.tdiv m.visibleLines 2 = m.visibleLines / 2 :=
    Int.tdiv_eq_ediv (by omega) (by omega)
  have hd : (m.Update DefaultKeymap (.KeyMsg "ctrl+d")).1.scrollOffset
      = min (m.scrollOffset + Int.tdiv m.visibleLines 2) m.maxOffset := by
    simp [LogModel.Update, hh, DefaultKeymap]
  have hu : (m.Update DefaultKeymap (.KeyMsg "ctrl+u")).1.scrollOffset
      = max (m.scrollOffset - Int.tdiv m.visibleLines 2) 0 := by
    simp [LogModel.Update, hh, DefaultKeymap]
  have hmax : 0 ≤ m.maxOffset := by
    simp only [LogModel.maxOffset]
    split_ifs <;> omega
  rw [hd, hu, hdiv]
  refine ⟨?_, ?_, ?_, ?_⟩
  · intro h2 hlt
    omega
  · intro h2 hpos
    omega
  · intro h0
    omega
  · simp only [LogModel.visibleLines]
    split_ifs <;> omega

/-- C21, witness: `ctrl+d` on the model of `TestLogModelPageNavigation` (16
visible lines) scrolls from 0 to 8. -/
theorem halfPage_moves_witness :
    pageLogModel.showHelp = false ∧ 2 ≤ pageLogModel.visibleLines
      ∧ pageLogModel.scrollOffset < pageLogModel.maxOffset
      ∧ pageLogModel.scrollOffset
          < (pageLogModel.Update DefaultKeymap (.KeyMsg "ctrl+d")).1.scrollOffset :=
  ⟨rfl, by decide, by decide, (halfPage_moves pageLogModel rfl).1 (by decide) (by decide)⟩

theorem update_key_bottom (m : LogModel) (hh : m.showHelp = false) :
    m.Update DefaultKeymap (.KeyMsg "G") = (m.scrolledTo m.maxOffset, none) := by
  simp [LogModel.Update, hh, DefaultKeymap, LogModel.scrolledTo]

/-- C22, counterexample: at height 10 `Update` uses 6 visible lines, not
`10 - 2`, and bounds the offset of 100 lines by 94, not 92; at height 2 it
uses 10, not the minimum 1. -/
theorem visibleLines_not_height_minus_two :
    sampleLogModel.height = 10
      ∧ sampleLogModel.visibleLines = 6
      ∧ sampleLogModel.visibleLines ≠ max (sampleLogModel.height - 2) 1
      ∧ sampleLogModel.maxOffset = 94
      ∧ (NewLogModelWithSize 100 2).visibleLines = 10
      ∧ (NewLogModelWithSize 100 2).visibleLines ≠ max ((NewLogModelWithSize 100 2).height - 2) 1 := by
  decide

/-- C22, amended: `Update` computes the number of visible log lines as
`height - 4` (`height - 6` with the verbose help bar) whenever that is at
least 1, the number is never below 1, and scrolling is bounded by
`max 0 (len lines - that number)`. -/
theorem visibleLines_spec (m : LogModel) :
    (1 ≤ m.height - (if m.showVerboseHelp then 6 else 4) →
        m.visibleLines = m.height - (if m.showVerboseHelp then 6 else 4))
      ∧ 1 ≤ m.visibleLines
      ∧ m.maxOffset = max 0 (m.lines.length - m.visibleLines)
      ∧ (m.withHelp false).Update DefaultKeymap (.KeyMsg "G")
          = ((m.withHelp false).scrolledTo (max 0 (m.lines.length - m.visibleLines)), none) := by
  have hmax : m.maxOffset = max 0 (m.lines.length - m.visibleLines) := by
    simp only [LogModel.maxOffset]
    split_ifs <;> omega
  have hm : (m.withHelp false).maxOffset = m.maxOffset := rfl
  refine ⟨?_, visibleLines_pos m, hmax, ?_⟩
  · intro h
    simp only [LogModel.visibleLines]
    split_ifs at h ⊢ <;> omega
  · rw [update_key_bottom (m.withHelp false) rfl, hm, hmax]

/-- C22, witness: height 10 without the verbose help bar gives 6 visible lines. -/
theorem visibleLines_spec_witness :
    (1 : Int) ≤ sampleLogModel.height - (if sampleLogModel.showVerboseHelp then 6 else 4)
      ∧ sampleLogModel.visibleLines = 6 :=
  ⟨by decide, ((visibleLines_spec sampleLogModel).1 (by decide)).trans (by decide)⟩

/-- C26, the code at the failing input: at height 0 `Update` counts 10 visible
lines and `View` 20; after Bottom on 50 lines the offset is 40 and `View`
reads the 10 lines 40..49, not a window of 20. -/
theorem visibleLines_view_mismatch :
    smallLogModel.visibleLines = 10
      ∧ smallLogModel.viewVisibleLines = 20
      ∧ (smallLogModel.Update DefaultKeymap (.KeyMsg "G")).1.scrollOffset = 40
      ∧ ((smallLogModel.Update DefaultKeymap (.KeyMsg "G")).1.viewReads.map
            (fun reads => reads.map Prod.fst))
          = some [40, 41, 42, 43, 44, 45, 46, 47, 48, 49]
      ∧ NewLogModel.visibleLines ≠ NewLogModel.viewVisibleLines := by
  decide

theorem visibleLines_eq_view (m : LogModel)
    (h : 1 ≤ m.height - (if m.showVerboseHelp then 6 else 4)) :
    m.visibleLines = m.viewVisibleLines := by
  simp only [LogModel.visibleLines, LogModel.viewVisibleLines]
  split_ifs at h ⊢ <;> omega

end ui

/-! ## The log view: the reads of `View` -/

theorem sliceIndex_in_range (xs : List String) (i : Int) (h0 : 0 ≤ i) (h1 : i < xs.length) :
    ∃ line, sliceIndex xs i = some line := by
  have hlt : i.toNat < xs.length := by omega
  exact ⟨xs[i.toNat], by simp [sliceIndex, h0, h1, List.getElem?_eq_getElem hlt]⟩

theorem readLoop_in_range (lines : List String) (count : Nat) (i : Int) (h0 : 0 ≤ i)
    (h1 : i + count ≤ lines.length) :
    ∃ reads, ui.readLoop lines i count = some reads
      ∧ reads.length = count
      ∧ ∀ p ∈ reads, i ≤ p.1 ∧ p.1 < i + count ∧ sliceIndex lines p.1 = some p.2 := by
  induction count generalizing i with
  | zero => exact ⟨[], rfl, rfl, by simp⟩
  | succ n ih =>
    obtain ⟨line, hline⟩ := sliceIndex_in_range lines i h0 (by push_cast at h1; omega)
    obtain ⟨rest, hrest, hlen, hmem⟩ := ih (i + 1) (by omega) (by push_cast at h1 ⊢; omega)
    refine ⟨(i, line) :: rest, by simp only [ui.readLoop, hline, hrest], by simp [hlen], ?_⟩
    intro p hp
    simp only [List.mem_cons] at hp
    rcases hp with rfl | hp
    · refine ⟨le_refl _, ?_, hline⟩
      push_cast
      omega
    · obtain ⟨a, b, c⟩ := hmem p hp
      refine ⟨by omega, ?_, c⟩
      push_cast
      omega

namespace ui

theorem viewVisibleLines_pos (m : LogModel) : 1 ≤ m.viewVisibleLines := by
  simp only [LogModel.viewVisibleLines]
  split_ifs <;> omega

theorem viewEndIdx_eq_min (m : LogModel) :
    m.viewEndIdx = min (m.scrollOffset + m.viewVisibleLines) m.lines.length := by
  simp only [LogModel.viewEndIdx]
  split_ifs <;> omega

/-- C27: for a model with `scrollOffset ≥ 0`, `View` does not panic on an index,
and it reads `m.lines` only at indices `i` with
`scrollOffset ≤ i < min (scrollOffset + visibleLines) (len lines)` (with the
visible-line count of `View`), finding there the line of that index; when
`scrollOffset` is `len lines` or more it reads no line at all. -/
theorem view_reads_in_range (m : LogModel) (h0 : 0 ≤ m.scrollOffset) :
    ∃ reads, m.viewReads = some reads
      ∧ (∀ p ∈ reads,
          m.scrollOffset ≤ p.1
            ∧ p.1 < min (m.scrollOffset + m.viewVisibleLines) m.lines.length
            ∧ 0 ≤ p.1 ∧ p.1 < m.lines.length
            ∧ sliceIndex m.lines p.1 = some p.2)
      ∧ ((m.lines.length : Int) ≤ m.scrollOffset → reads = []) := by
  have hend := viewEndIdx_eq_min m
  have hvis := viewVisibleLines_pos m
  unfold LogModel.viewReads
  split_ifs with h1 h2 h3
  · exact ⟨[], rfl, by simp, fun _ => rfl⟩
  · exact ⟨[], rfl, by simp, fun _ => rfl⟩
  · exact ⟨[], rfl, by simp, fun _ => rfl⟩
  · have hcount : m.scrollOffset + ((m.viewEndIdx - m.scrollOffset).toNat : Int)
        ≤ m.lines.length ∨ (m.viewEndIdx - m.scrollOffset).toNat = 0 := by
      by_cases hle : m.viewEndIdx ≤ m.scrollOffset
      · right
        omega
      · left
        omega
    rcases hcount with hc | hc
    · obtain ⟨reads, hr, hlen, hmem⟩ :=
        readLoop_in_range m.lines (m.viewEndIdx - m.scrollOffset).toNat m.scrollOffset h0 hc
      refine ⟨reads, hr, ?_, ?_⟩
      · intro p hp
        obtain ⟨a, b, c⟩ := hmem p hp
        refine ⟨a, by omega, by omega, by omega, c⟩
      · intro hge
        have hz : (m.viewEndIdx - m.scrollOffset).toNat = 0 := by omega
        rw [hz] at hlen
        exact List.length_eq_zero.mp hlen
    · rw [hc]
      exact ⟨[], rfl, by simp, fun _ => rfl⟩

/-- C27, witness: after Bottom on the model of `TestLogModelNavigation` (offset
94 of 100 lines, 6 visible) `View` reads the indices 94..99; scrolled to 120
it reads nothing. -/
theorem view_reads_in_range_witness :
    (0 : Int) ≤ (sampleLogModel.scrolledTo 94).scrollOffset
      ∧ (∃ reads, (sampleLogModel.scrolledTo 94).viewReads = some reads
          ∧ (∀ p ∈ reads,
              (sampleLogModel.scrolledTo 94).scrollOffset ≤ p.1
                ∧ p.1 < min ((sampleLogModel.scrolledTo 94).scrollOffset
                              + (sampleLogModel.scrolledTo 94).viewVisibleLines)
                          (sampleLogModel.scrolledTo 94).lines.length
                ∧ 0 ≤ p.1 ∧ p.1 < (sampleLogModel.scrolledTo 94).lines.length
                ∧ sliceIndex (sampleLogModel.scrolledTo 94).lines p.1 = some p.2)
          ∧ (((sampleLogModel.scrolledTo 94).lines.length : Int)
                ≤ (sampleLogModel.scrolledTo 94).scrollOffset → reads = []))
      ∧ ((sampleLogModel.scrolledTo 94).viewReads.map (fun reads => reads.map Prod.fst))
          = some [94, 95, 96, 97, 98, 99]
      ∧ (sampleLogModel.scrolledTo 120).viewReads = some [] :=
  ⟨by decide, view_reads_in_range (sampleLogModel.scrolledTo 94) (by decide), by decide,
    by decide⟩

/-! ## Key bindings: order of overrides -/

theorem keymap_ext_binding (k1 k2 : Keymap)
    (h : ∀ a ∈ ListKeymapActions, k1.binding a = k2.binding a) : k1 = k2 := by
  have h0 := h "up" (by decide)
  have h1 := h "down" (by decide)
  have h2 := h "left" (by decide)
  have h3 := h "right" (by decide)
  have h4 := h "top" (by decide)
  have h5 := h "bottom" (by decide)
  have h6 := h "select" (by decide)
  have h7 := h "back" (by decide)
  have h8 := h "quit" (by decide)
  have h9 := h "stage" (by decide)
  have h10 := h "stage-all" (by decide)
  have h11 := h "unstage" (by decide)
  have h12 := h "unstage-all" (by decide)
  have h13 := h "discard" (by decide)
  have h14 := h "commit" (by decide)
  have h15 := h "commit-edit" (by decide)
  have h16 := h "push" (by decide)
  have h17 := h "stash" (by decide)
  have h18 := h "stash-all" (by decide)
  have h19 := h "file-diff" (by decide)
  have h20 := h "all-diffs" (by decide)
  have h21 := h "branches" (by decide)
  have h22 := h "stashes" (by decide)
  have h23 := h "log" (by decide)
  have h24 := h "visual" (by decide)
  have h25 := h "help" (by decide)
  have h26 := h "verbose-help" (by decide)
  have h27 := h "new-branch" (by decide)
  have h28 := h "delete" (by decide)
  simp only [Keymap.binding, String.reduceEq, if_true, if_false, Option.some.injEq]
    at h0 h1 h2 h3 h4 h5 h6 h7 h8 h9 h10 h11 h12 h13 h14 h15 h16 h17 h18 h19 h20 h21 h22 h23 h24 h25 h26 h27 h28
  cases k1
  cases k2
  simp_all

theorem binding_applyOverride (k : Keymap) (a key c : String) (ha : a ∈ ListKeymapActions) :
    (k.ApplyOverride a key).1.binding c = if c = a then some key else k.binding c := by
  by_cases hc : c = a
  · subst hc
    simp [binding_applyOverride_self k c key ha]
  · simp [hc, binding_applyOverride_other k a key c hc]

/-- C30: for two distinct valid actions `a ≠ b` and any keys, `ApplyOverride a k1`
then `ApplyOverride b k2` yields the same keymap as the opposite order; and for
one action, `ApplyOverride a k1` then `ApplyOverride a k2` yields the same
keymap as `ApplyOverride a k2` alone, so repeating an override changes
nothing. -/
theorem applyOverride_commute (k : Keymap) (a b k1 k2 : String)
    (ha : a ∈ ListKeymapActions) (hb : b ∈ ListKeymapActions) (hab : a ≠ b) :
    ((k.ApplyOverride a k1).1.ApplyOverride b k2).1
        = ((k.ApplyOverride b k2).1.ApplyOverride a k1).1
      ∧ ((k.ApplyOverride a k1).1.ApplyOverride a k2).1 = (k.ApplyOverride a k2).1
      ∧ ((k.ApplyOverride a k1).1.ApplyOverride a k1).1 = (k.ApplyOverride a k1).1 := by
  refine ⟨?_, ?_, ?_⟩
  · apply keymap_ext_binding
    intro c _
    rw [binding_applyOverride _ b k2 c hb, binding_applyOverride _ a k1 c ha,
      binding_applyOverride _ a k1 c ha, binding_applyOverride _ b k2 c hb]
    by_cases h1 : c = a
    · have h2 : ¬ c = b := fun e => hab (h1.symm.trans e)
      simp [h1, h2, hab]
    · simp [h1]
  · apply keymap_ext_binding
    intro c _
    rw [binding_applyOverride _ a k2 c ha, binding_applyOverride _ a k1 c ha,
      binding_applyOverride _ a k2 c ha]
    by_cases h1 : c = a <;> simp [h1]
  · apply keymap_ext_binding
    intro c _
    rw [binding_applyOverride _ a k1 c ha, binding_applyOverride _ a k1 c ha]
    by_cases h1 : c = a <;> simp [h1]

/-- C30, witness: `up = w` and `stage = x` on the default keymap, in both orders. -/
theorem applyOverride_commute_witness :
    "up" ∈ ListKeymapActions ∧ "stage" ∈ ListKeymapActions ∧ "up" ≠ "stage"
      ∧ ((DefaultKeymap.ApplyOverride "up" "w").1.ApplyOverride "stage" "x").1
          = ((DefaultKeymap.ApplyOverride "stage" "x").1.ApplyOverride "up" "w").1
      ∧ ((DefaultKeymap.ApplyOverride "up" "w").1.ApplyOverride "up" "x").1
          = (DefaultKeymap.ApplyOverride "up" "x").1
      ∧ ((DefaultKeymap.ApplyOverride "up" "w").1.ApplyOverride "up" "w").1
          = (DefaultKeymap.ApplyOverride "up" "w").1 :=
  ⟨by decide, by decide, by decide,
    applyOverride_commute DefaultKeymap "up" "stage" "w" "x" (by decide) (by decide) (by decide)⟩

end ui

end GoOnGit
